import Mathlib

/-!
The NIF keyframe-track decoder and the readers of `NIFStream`

A shallow embedding of `components/nif/niffile.hpp` and
`components/nif/nifstream.hpp`: the byte reader `NIFStream`, the error helper
`NIFFile::fail`, the record accessors and the cache guard of `NIFFile`, and the
generic track decoder `KeyListT<T, getValue>::read`.

Conventions of the embedding

* A stream is the list of its bytes together with a cursor (`DataStream`).
* A C++ function that may throw returns a `Result`: either the value and the
  stream after the call, or the exception and the stream at the throw.
* `KeyListT::read` mutates both the track (`this`) and the stream, so it returns
  an `Outcome`: the exception thrown (if any) with both objects as they are when
  the call returns or throws.
* `int` is a 32-bit two's-complement integer (`Int` in range), `unsigned int` is a
  32-bit and `size_t` a 64-bit unsigned integer (`Nat` with an explicit modulus).
* A `float` is carried as its 32-bit pattern (`F32`); no float arithmetic is done
  by the decoder.
* A stream holds fewer than `2 ^ 64` bytes: its size is a `size_t`.
* `std::vector::resize(n)` and `reserve(n)` throw `std::length_error` when `n` is above
  `max_size()` of the vector, which is a parameter of the model; within `max_size()`
  the allocation is taken to succeed (exhaustion of memory is outside the model).
* `assert` is active (`NDEBUG` is not defined): a failed assertion is a failure of the
  call.
-/

namespace Nif

/-- One byte of the input. -/
abbrev Byte := Fin 256

/-- A 32-bit float, carried as the 32-bit pattern it was read from. -/
structure F32 where
  bits : Nat
deriving DecidableEq, Repr

/-- The failures of the program. `runtime_error` is `std::runtime_error` with its
`what()` text; `shortRead` is the failure of a read that asks for more bytes than
remain; `out_of_range` is the `std::out_of_range` of `std::vector::at`; `assertion` is
a failed `assert`; `length_error` is the `std::length_error` of `std::vector::resize`
and `reserve`. -/
inductive Error where
  | runtime_error (what : String)
  | shortRead
  | out_of_range
  | assertion
  | length_error
deriving DecidableEq, Repr

/-- An object of class `Record` (the class is declared in record.hpp), identified by
its address. A `Record*` is an `Option Record`, `none` being `NULL`. -/
structure Record where
  addr : Nat
deriving DecidableEq, Repr

/-- The data of `NIFFile`: the file name, the text that `warn` has written to
`std::cerr`, the version, the record list and the root list. -/
structure NIFFile where
  filename : String
  cerr : List String
  ver : Int := 0
  records : List (Option Record) := []
  roots : List (Option Record) := []
deriving DecidableEq, Repr

/-- `NIFFile::fail`: builds the message and throws it as a `std::runtime_error`. -/
def NIFFile.fail (file : NIFFile) (msg : String) : Error :=
  let err := "NIFFile Error: " ++ msg
  let err := err ++ ("\nFile: " ++ file.filename)
  Error.runtime_error err

/-- `NIFFile::warn`: writes two lines to `std::cerr` and returns normally. -/
def NIFFile.warn (file : NIFFile) (msg : String) : NIFFile :=
  { file with cerr := file.cerr ++ ["NIFFile Warning: " ++ msg ++ "\n" ++ "File: " ++ file.filename ++ "\n"] }

/-- `Ogre::DataStream` as the decoder sees it: all bytes and the read cursor. The size
of a stream is a `size_t`, so there are fewer than `2 ^ 64` bytes. -/
structure DataStream where
  data : List Byte
  pos : Nat
  size_lt : data.length < 2 ^ 64
deriving DecidableEq, Repr

/-- `NIFStream`: the input stream and the back-reference to the owning file. -/
structure NIFStream where
  inp : DataStream
  file : NIFFile
deriving DecidableEq, Repr

/-- Outcome of a reader call: the value with the stream after the call, or the
exception with the stream at the throw. -/
inductive Result (α : Type) where
  | ok (val : α) (nif : NIFStream)
  | exc (e : Error) (nif : NIFStream)
deriving Repr

/-- The byte `k` places after the cursor (0 past the end of the data). -/
def NIFStream.byteAt (nif : NIFStream) (k : Nat) : Nat :=
  match nif.inp.data[nif.inp.pos + k]? with
  | some b => b.val
  | none => 0

/-- The stream with the cursor moved `n` bytes forward. -/
def NIFStream.advance (nif : NIFStream) (n : Nat) : NIFStream :=
  { nif with inp := { nif.inp with pos := nif.inp.pos + n } }

/-- The `n` bytes at the cursor. -/
def NIFStream.window (nif : NIFStream) (n : Nat) : List Byte :=
  (nif.inp.data.drop nif.inp.pos).take n

/-- The little-endian 32-bit word that starts `off` bytes after the cursor. -/
def NIFStream.le32At (nif : NIFStream) (off : Nat) : Nat :=
  nif.byteAt off + 2 ^ 8 * nif.byteAt (off + 1) + 2 ^ 16 * nif.byteAt (off + 2)
    + 2 ^ 24 * nif.byteAt (off + 3)

/-- Modelled from the spec: `NIFStream::read_le32` is declared in nifstream.hpp and
defined outside the given sources. The spec: a 4-byte read consumes exactly 4 bytes,
advances the cursor by 4 and decodes little-endian; requesting more bytes than remain
is a failure. -/
def NIFStream.read_le32 (nif : NIFStream) : Result Nat :=
  if nif.inp.pos + 4 ≤ nif.inp.data.length then
    Result.ok (nif.le32At 0) (nif.advance 4)
  else
    Result.exc Error.shortRead nif

/-- Modelled from the spec: `NIFStream::read_le32f` is declared in nifstream.hpp and
defined outside the given sources. The spec: a float is 4 little-endian bytes. -/
def NIFStream.read_le32f (nif : NIFStream) : Result F32 :=
  match nif.read_le32 with
  | Result.ok u nif1 => Result.ok (F32.mk u) nif1
  | Result.exc e nif1 => Result.exc e nif1

/-- Conversion of a `uint32_t` to `int` (two's complement). -/
def toInt32 (u : Nat) : Int :=
  if u % 2 ^ 32 < 2 ^ 31 then ((u % 2 ^ 32 : Nat) : Int) else ((u % 2 ^ 32 : Nat) : Int) - 2 ^ 32

/-- Conversion of an `int` to `size_t` (64 bits). -/
def toSizeT (i : Int) : Nat :=
  (i % 2 ^ 64).toNat

/-- Conversion of an `int` to `unsigned int` (32 bits). -/
def toUInt32 (i : Int) : Nat :=
  (i % 2 ^ 32).toNat

/-- `int getInt() { return read_le32(); }` -/
def NIFStream.getInt (nif : NIFStream) : Result Int :=
  match nif.read_le32 with
  | Result.ok u nif1 => Result.ok (toInt32 u) nif1
  | Result.exc e nif1 => Result.exc e nif1

/-- `float getFloat() { return read_le32f(); }` -/
def NIFStream.getFloat (nif : NIFStream) : Result F32 :=
  nif.read_le32f

/-- `KeyT<T>`. -/
structure KeyT (T : Type) where
  mTime : F32
  mValue : T
  mForwardValue : T
  mBackwardValue : T
  mTension : F32
  mBias : F32
  mContinuity : F32
deriving DecidableEq, Repr

/-- What the template `KeyListT<T, getValue>` is instantiated with: the member
function `getValue`, whether `T` is `Ogre::Quaternion` (the `typeid` test of `read`),
the value-initialised `T` that `resize` fills new keys with, and `max_size()` of the
vector of keys `std::vector< KeyT<T> >`. The standard library fixes `max_size()`; with
a 64-bit `size_t` it is below `2 ^ 63` (a vector is no longer than `PTRDIFF_MAX`
bytes) and admits every count below `2 ^ 31`. -/
structure ValueType (T : Type) where
  getValue : NIFStream → Result T
  isQuaternion : Bool
  init : T
  maxSize : Nat
  maxSize_ge : 2 ^ 31 - 1 ≤ maxSize
  maxSize_lt : maxSize < 2 ^ 63

/-- The value-initialised key that `std::vector::resize` appends. -/
def ValueType.initKey {T : Type} (vt : ValueType T) : KeyT T :=
  { mTime := F32.mk 0, mValue := vt.init, mForwardValue := vt.init, mBackwardValue := vt.init,
    mTension := F32.mk 0, mBias := F32.mk 0, mContinuity := F32.mk 0 }

/-- The vector that `std::vector::resize(n)` leaves when it does not throw: the first
`n` elements, padded with `d`. -/
def resize {α : Type} (v : List α) (n : Nat) (d : α) : List α :=
  v.take n ++ List.replicate (n - v.length) d

/-- Assignment through the reference `key = mKeys[i]`. -/
def updateKey {α : Type} (keys : List α) (i : Nat) (f : α → α) : List α :=
  match keys[i]? with
  | some k => keys.set i (f k)
  | none => keys

/-- `KeyListT<T, getValue>`: the interpolation tag and the keys. -/
structure KeyListT (T : Type) where
  mInterpolationType : Int
  mKeys : List (KeyT T)
deriving DecidableEq, Repr

/-- State at the end of `KeyListT::read`: the exception thrown (`none` when the call
returns), the track and the stream as they are at that moment. -/
structure Outcome (T : Type) where
  thrown : Option Error
  self : KeyListT T
  nif : NIFStream
deriving Repr

namespace KeyListT

def sLinearInterpolation : Int := 1

def sQuadraticInterpolation : Int := 2

def sTBCInterpolation : Int := 3

def sXYZInterpolation : Int := 4

/-- The loop `for(size_t i = 0; i < count; i++) body` over the keys of the track: `n`
iterations are left and the next index is `i`. An exception thrown by the body ends
the loop with the track and the stream as they are at the throw. -/
def forKeys {T : Type} (body : Nat → KeyListT T → NIFStream → Outcome T) :
    Nat → Nat → KeyListT T → NIFStream → Outcome T
  | 0, _, self, nif => ⟨none, self, nif⟩
  | n + 1, i, self, nif =>
    match body i self nif with
    | ⟨some e, self1, nif1⟩ => ⟨some e, self1, nif1⟩
    | ⟨none, self1, nif1⟩ => forKeys body n (i + 1) self1 nif1

/-- Body of the loop of the linear branch. -/
def linearBody {T : Type} (vt : ValueType T) (i : Nat) (self : KeyListT T) (nif : NIFStream) :
    Outcome T :=
  match nif.getFloat with
  | Result.exc e nif1 => ⟨some e, self, nif1⟩
  | Result.ok t nif1 =>
    let self1 := { self with mKeys := updateKey self.mKeys i (fun key => { key with mTime := t }) }
    match vt.getValue nif1 with
    | Result.exc e nif2 => ⟨some e, self1, nif2⟩
    | Result.ok v nif2 =>
      ⟨none, { self1 with mKeys := updateKey self1.mKeys i (fun key => { key with mValue := v }) }, nif2⟩

/-- Body of the loop of the quadratic branch; the two tangent reads are guarded by
the `typeid` test. -/
def quadraticBody {T : Type} (vt : ValueType T) (i : Nat) (self : KeyListT T) (nif : NIFStream) :
    Outcome T :=
  match nif.getFloat with
  | Result.exc e nif1 => ⟨some e, self, nif1⟩
  | Result.ok t nif1 =>
    let self1 := { self with mKeys := updateKey self.mKeys i (fun key => { key with mTime := t }) }
    match vt.getValue nif1 with
    | Result.exc e nif2 => ⟨some e, self1, nif2⟩
    | Result.ok v nif2 =>
      let self2 := { self1 with mKeys := updateKey self1.mKeys i (fun key => { key with mValue := v }) }
      if vt.isQuaternion = false then
        match vt.getValue nif2 with
        | Result.exc e nif3 => ⟨some e, self2, nif3⟩
        | Result.ok f nif3 =>
          let self3 := { self2 with mKeys := updateKey self2.mKeys i (fun key => { key with mForwardValue := f }) }
          match vt.getValue nif3 with
          | Result.exc e nif4 => ⟨some e, self3, nif4⟩
          | Result.ok b nif4 =>
            ⟨none, { self3 with mKeys := updateKey self3.mKeys i (fun key => { key with mBackwardValue := b }) }, nif4⟩
      else
        ⟨none, self2, nif2⟩

/-- Body of the loop of the TBC branch. -/
def tbcBody {T : Type} (vt : ValueType T) (i : Nat) (self : KeyListT T) (nif : NIFStream) :
    Outcome T :=
  match nif.getFloat with
  | Result.exc e nif1 => ⟨some e, self, nif1⟩
  | Result.ok t nif1 =>
    let self1 := { self with mKeys := updateKey self.mKeys i (fun key => { key with mTime := t }) }
    match vt.getValue nif1 with
    | Result.exc e nif2 => ⟨some e, self1, nif2⟩
    | Result.ok v nif2 =>
      let self2 := { self1 with mKeys := updateKey self1.mKeys i (fun key => { key with mValue := v }) }
      match nif2.getFloat with
      | Result.exc e nif3 => ⟨some e, self2, nif3⟩
      | Result.ok a nif3 =>
        let self3 := { self2 with mKeys := updateKey self2.mKeys i (fun key => { key with mTension := a }) }
        match nif3.getFloat with
        | Result.exc e nif4 => ⟨some e, self3, nif4⟩
        | Result.ok b nif4 =>
          let self4 := { self3 with mKeys := updateKey self3.mKeys i (fun key => { key with mBias := b }) }
          match nif4.getFloat with
          | Result.exc e nif5 => ⟨some e, self4, nif5⟩
          | Result.ok c nif5 =>
            ⟨none, { self4 with mKeys := updateKey self4.mKeys i (fun key => { key with mContinuity := c }) }, nif5⟩

/-- The linear branch of `read`. -/
def readLinear {T : Type} (vt : ValueType T) (count : Nat) (self : KeyListT T) (nif : NIFStream) :
    Outcome T :=
  forKeys (linearBody vt) count 0 self nif

/-- The quadratic branch of `read`. -/
def readQuadratic {T : Type} (vt : ValueType T) (count : Nat) (self : KeyListT T)
    (nif : NIFStream) : Outcome T :=
  forKeys (quadraticBody vt) count 0 self nif

/-- The TBC branch of `read`. -/
def readTBC {T : Type} (vt : ValueType T) (count : Nat) (self : KeyListT T) (nif : NIFStream) :
    Outcome T :=
  forKeys (tbcBody vt) count 0 self nif

/-- The value-initialised `KeyT<float>` of the local vectors `Keys_XYZ[i]`. -/
def floatInitKey : KeyT F32 :=
  { mTime := F32.mk 0, mValue := F32.mk 0, mForwardValue := F32.mk 0, mBackwardValue := F32.mk 0,
    mTension := F32.mk 0, mBias := F32.mk 0, mContinuity := F32.mk 0 }

/-- The inner loop of the fixed-axis branch: `numKeys` pairs (time, value) of floats
into `Keys_XYZ[i]`. -/
def readXYZKeys : Nat → Nat → List (KeyT F32) → NIFStream → Result (List (KeyT F32))
  | 0, _, keys, nif => Result.ok keys nif
  | n + 1, j, keys, nif =>
    match nif.getFloat with
    | Result.exc e nif1 => Result.exc e nif1
    | Result.ok t nif1 =>
      let keys1 := updateKey keys j (fun key => { key with mTime := t })
      match nif1.getFloat with
      | Result.exc e nif2 => Result.exc e nif2
      | Result.ok v nif2 =>
        readXYZKeys n (j + 1) (updateKey keys1 j (fun key => { key with mValue := v })) nif2

/-- The loop over the three axes of the fixed-axis branch: `n` axes are left, the
next one is `i`, `keysXYZ` is the local array `Keys_XYZ`. `numKeys` is an
`unsigned int`, below `2 ^ 32`, which is within `max_size()` of a vector of float keys,
so the `resize` of `Keys_XYZ[i]` raises no `std::length_error`. -/
def readXYZAxes : Nat → Nat → List (List (KeyT F32)) → NIFStream →
    Result (List (List (KeyT F32)))
  | 0, _, keysXYZ, nif => Result.ok keysXYZ nif
  | n + 1, i, keysXYZ, nif =>
    match nif.getInt with
    | Result.exc e nif1 => Result.exc e nif1
    | Result.ok v nif1 =>
      let numKeys := toUInt32 v
      if numKeys ≠ 0 then
        match nif1.getInt with
        | Result.exc e nif2 => Result.exc e nif2
        | Result.ok interpolationTypeAgain nif2 =>
          if interpolationTypeAgain ≠ sLinearInterpolation then
            Result.exc (nif2.file.fail ("XYZ_ROTATION_KEY's KeyGroup keyType must be '1' (Linear Interpolation).  Retrieved Value: " ++ toString interpolationTypeAgain)) nif2
          else
            match readXYZKeys numKeys 0 (resize (keysXYZ.getD i []) numKeys floatInitKey) nif2 with
            | Result.exc e nif3 => Result.exc e nif3
            | Result.ok keys nif3 => readXYZAxes n (i + 1) (keysXYZ.set i keys) nif3
      else
        readXYZAxes n (i + 1) keysXYZ nif1

/-- The text of one warning of the reporting loops. `realToString` is
`Ogre::StringConverter::toString` on a float. -/
def xyzKeyText (realToString : F32 → String) (i j : Nat) (key : KeyT F32) : String :=
  let iStr := toString i
  let jStr := toString j
  let mTStr := realToString key.mTime
  let mVStr := realToString key.mValue
  "Keys_XYZ[" ++ iStr ++ "][" ++ jStr ++ "].mTime=" ++ mTStr ++ "; Keys_XYZ[" ++ iStr ++ "][" ++ jStr ++ "].mValue=" ++ mVStr

/-- The reporting loops of the fixed-axis branch: one warning per key read, then the
closing warning. -/
def warnXYZ (realToString : F32 → String) (keysXYZ : List (List (KeyT F32))) (file : NIFFile) :
    NIFFile :=
  let file1 := (List.range 3).foldl (fun f i =>
    (List.range (keysXYZ.getD i []).length).foldl (fun g j =>
      g.warn (xyzKeyText realToString i j ((keysXYZ.getD i []).getD j floatInitKey))) f) file
  file1.warn "XYZ_ROTATION_KEY read, but not used!"

/-- The fixed-axis branch of `read`, entered with the tag and the resized keys
already stored in `self`. -/
def readXYZ {T : Type} (realToString : F32 → String) (count : Nat) (self : KeyListT T)
    (nif : NIFStream) : Outcome T :=
  if count ≠ 1 then
    ⟨some (nif.file.fail ("count should always be '1' for XYZ_ROTATION_KEY.  Retrieved Value: " ++ toString count)), self, nif⟩
  else
    match nif.getFloat with
    | Result.exc e nif1 => ⟨some e, self, nif1⟩
    | Result.ok _ nif1 =>
      match readXYZAxes 3 0 [[], [], []] nif1 with
      | Result.exc e nif2 => ⟨some e, self, nif2⟩
      | Result.ok keysXYZ nif2 =>
        ⟨none, self, { nif2 with file := warnXYZ realToString keysXYZ nif2.file }⟩

/-- `KeyListT<T, getValue>::read(nif, force)`. The tag is stored first; then
`mKeys.resize(count)` throws `std::length_error`, with the keys as they were, when
`count` is above `max_size()`. -/
def read {T : Type} (vt : ValueType T) (realToString : F32 → String) (self : KeyListT T)
    (nif : NIFStream) (force : Bool) : Outcome T :=
  match nif.getInt with
  | Result.exc e nif1 => ⟨some e, self, nif1⟩
  | Result.ok c nif1 =>
    let count := toSizeT c
    if count = 0 ∧ force = false then
      ⟨none, self, nif1⟩
    else
      match nif1.getInt with
      | Result.exc e nif2 => ⟨some e, self, nif2⟩
      | Result.ok ty nif2 =>
        if vt.maxSize < count then
          ⟨some Error.length_error, { self with mInterpolationType := ty }, nif2⟩
        else
          let self1 : KeyListT T :=
            { mInterpolationType := ty, mKeys := resize self.mKeys count vt.initKey }
          if ty = sLinearInterpolation then
            readLinear vt count self1 nif2
          else if ty = sQuadraticInterpolation then
            readQuadratic vt count self1 nif2
          else if ty = sTBCInterpolation then
            readTBC vt count self1 nif2
          else if ty = sXYZInterpolation then
            readXYZ realToString count self1 nif2
          else if ty = 0 then
            if count ≠ 0 then
              ⟨some (nif2.file.fail "Interpolation type 0 doesn't work with keys"), self1, nif2⟩
            else
              ⟨none, self1, nif2⟩
          else
            ⟨some (nif2.file.fail ("Unhandled interpolation type: " ++ toString ty)), self1, nif2⟩

end KeyListT

/-- Layout of a value type in the file: `getValue` reads exactly `w` bytes, decodes
them with `decode`, and fails exactly when fewer than `w` bytes remain. -/
def ValueType.FixedWidth {T : Type} (vt : ValueType T) (w : Nat) (decode : List Byte → T) : Prop :=
  ∀ nif : NIFStream, vt.getValue nif =
    if nif.inp.pos + w ≤ nif.inp.data.length then Result.ok (decode (nif.window w)) (nif.advance w)
    else Result.exc Error.shortRead nif

/-- `FloatKeyList`: `KeyListT<float, &NIFStream::getFloat>`. A `KeyT<float>` is 7
floats, 28 bytes; `max_size()` is `PTRDIFF_MAX / 28`. -/
def floatType : ValueType F32 :=
  { getValue := NIFStream.getFloat, isQuaternion := false, init := F32.mk 0,
    maxSize := (2 ^ 63 - 1) / 28, maxSize_ge := by decide, maxSize_lt := by decide }

/-- `Ogre::Quaternion` as four floats. -/
structure Quaternion where
  w : F32
  x : F32
  y : F32
  z : F32
deriving DecidableEq, Repr

/-- The little-endian 32-bit word at offset `k` of a byte block. -/
def le32 (bs : List Byte) (k : Nat) : Nat :=
  (bs.getD k 0).val + 2 ^ 8 * (bs.getD (k + 1) 0).val + 2 ^ 16 * (bs.getD (k + 2) 0).val
    + 2 ^ 24 * (bs.getD (k + 3) 0).val

/-- A float from its 4-byte block. -/
def decodeFloat (bs : List Byte) : F32 :=
  F32.mk (le32 bs 0)

/-- Four consecutive little-endian floats of a byte block, as a quaternion. -/
def decodeQuaternion (bs : List Byte) : Quaternion :=
  { w := F32.mk (le32 bs 0), x := F32.mk (le32 bs 4), y := F32.mk (le32 bs 8),
    z := F32.mk (le32 bs 12) }

/-- Modelled from the spec: `NIFStream::getQuaternion` is declared in nifstream.hpp and
defined outside the given sources. The spec gives a quaternion a format-defined fixed
width; here it is four little-endian floats (16 bytes), read only when all 16 remain. -/
def NIFStream.getQuaternion (nif : NIFStream) : Result Quaternion :=
  if nif.inp.pos + 16 ≤ nif.inp.data.length then
    Result.ok (decodeQuaternion (nif.window 16)) (nif.advance 16)
  else
    Result.exc Error.shortRead nif

/-- `QuaternionKeyList`: `KeyListT<Ogre::Quaternion, &NIFStream::getQuaternion>`. The
default `Ogre::Quaternion` is the identity rotation (w = 1.0f). A `KeyT<Ogre::Quaternion>`
is 64 bytes; `max_size()` is `PTRDIFF_MAX / 64`. -/
def quaternionType : ValueType Quaternion :=
  { getValue := NIFStream.getQuaternion, isQuaternion := true,
    init := { w := F32.mk 0x3F800000, x := F32.mk 0, y := F32.mk 0, z := F32.mk 0 },
    maxSize := (2 ^ 63 - 1) / 64, maxSize_ge := by decide, maxSize_lt := by decide }

/-- The stream over `bytes` with the cursor at the start, for a file called `name`
(the empty stream when `bytes` is too long to be the content of a stream). -/
def NIFStream.ofBytes (name : String) (bytes : List Byte) : NIFStream :=
  if h : bytes.length < 2 ^ 64 then
    { inp := { data := bytes, pos := 0, size_lt := h }, file := { filename := name, cerr := [] } }
  else
    { inp := { data := [], pos := 0, size_lt := by decide },
      file := { filename := name, cerr := [] } }

/-- The value that `read` holds in `count` once the count field is read: the 32-bit
field as an `int`, converted to `size_t`. It is the field itself when the field is
below `2 ^ 31`. -/
def KeyListT.countOf (nif : NIFStream) : Nat :=
  toSizeT (toInt32 (nif.le32At 0))

/-- The value that `read` stores in `mInterpolationType`: the 32-bit field that
follows the count, as an `int`. -/
def KeyListT.tagOf (nif : NIFStream) : Int :=
  toInt32 (nif.le32At 4)

/-! ## Descriptions of inputs and of results, used in the statements below -/

/-- An outcome that is a normal return or the failure of a read past the end of the
data; in particular not an error raised through `NIFFile::fail`. -/
def Outcome.Benign {T : Type} (o : Outcome T) : Prop :=
  o.thrown = none ∨ o.thrown = some Error.shortRead

/-- The key that one iteration of the linear loop leaves, for the stream `nif` at the
start of the iteration: time and value come from the block at the cursor, the other
fields are those of the old key. -/
def KeyListT.linearKey {T : Type} (w : Nat) (decode : List Byte → T) (nif : NIFStream)
    (key : KeyT T) : KeyT T :=
  { key with mTime := F32.mk (nif.le32At 0), mValue := decode ((nif.advance 4).window w) }

/-- The key that one iteration of the quadratic loop leaves for a value type other than
a quaternion: time, value, forward and backward tangent, in this order. -/
def KeyListT.quadraticKey {T : Type} (w : Nat) (decode : List Byte → T) (nif : NIFStream)
    (key : KeyT T) : KeyT T :=
  { key with mTime := F32.mk (nif.le32At 0), mValue := decode ((nif.advance 4).window w),
             mForwardValue := decode ((nif.advance (4 + w)).window w),
             mBackwardValue := decode ((nif.advance (4 + 2 * w)).window w) }

/-- The track and the stream after the header: the tag is stored and the keys are
resized before any branch is taken. -/
def KeyListT.afterHeader {T : Type} (vt : ValueType T) (self : KeyListT T) (nif : NIFStream) :
    KeyListT T :=
  { mInterpolationType := KeyListT.tagOf nif,
    mKeys := resize self.mKeys (KeyListT.countOf nif) vt.initKey }

/-- A float formatter for the concrete runs below: the bit pattern in decimal. -/
def showBits (f : F32) : String :=
  toString f.bits

/-- A float track that already holds one key under tag 2, as the track object `read` is
called on. -/
def trackWithKey : KeyListT F32 :=
  { mInterpolationType := 2, mKeys := [KeyListT.floatInitKey] }

/-- A rotation track with outer count 2 and tag 4, followed by a padding float and
three empty axes: well formed but for the count. -/
def xyzCountTwo : NIFStream :=
  NIFStream.ofBytes "a.nif"
    [2, 0, 0, 0, 4, 0, 0, 0, 0, 0, 0, 0, 0, 0, 0, 0, 0, 0, 0, 0, 0, 0, 0, 0]

/-- A float track of two keys whose times are not ascending: (5, 1) then (3, 2). -/
def linearTwoKeys : NIFStream :=
  NIFStream.ofBytes "a.nif"
    [2, 0, 0, 0, 1, 0, 0, 0, 5, 0, 0, 0, 1, 0, 0, 0, 3, 0, 0, 0, 2, 0, 0, 0]

/-- A float track of one quadratic key: time 5, value 1, tangents 7 and 9. -/
def quadraticOneKey : NIFStream :=
  NIFStream.ofBytes "a.nif"
    [1, 0, 0, 0, 2, 0, 0, 0, 5, 0, 0, 0, 1, 0, 0, 0, 7, 0, 0, 0, 9, 0, 0, 0]

/-- A quaternion track of one quadratic key: a time and 16 bytes of value, followed by
other data (16 more bytes, which a tangent read would take). -/
def quadraticQuaternionKey : NIFStream :=
  NIFStream.ofBytes "a.nif"
    [1, 0, 0, 0, 2, 0, 0, 0, 5, 0, 0, 0,
     1, 0, 0, 0, 2, 0, 0, 0, 3, 0, 0, 0, 4, 0, 0, 0,
     9, 9, 9, 9, 9, 9, 9, 9, 9, 9, 9, 9, 9, 9, 9, 9]

/-- The bytes of one axis of a fixed-axis track whose sub-count is `n`: the sub-count,
and when it is not 0 the nested tag and `n` pairs of floats. -/
def KeyListT.axisSize (n : Nat) : Nat :=
  4 + (if n ≠ 0 then 4 + 8 * n else 0)

/-- The bytes of consecutive axes with the given sub-counts. -/
def KeyListT.axesSize (ns : List Nat) : Nat :=
  (ns.map KeyListT.axisSize).sum

/-- The layout "axes with sub-counts `pre`, each with nested tag 1 when its sub-count
is not 0, and then an axis with a nonzero sub-count and a nested tag other than 1",
read off the stream at the cursor; the 8 bytes of the last sub-count and tag must be
there. -/
def KeyListT.badAxisAfter : List Nat → NIFStream → Bool
  | [], nif =>
    decide (nif.inp.pos + 8 ≤ nif.inp.data.length) && (nif.le32At 0 != 0)
      && (toInt32 (nif.le32At 4) != 1)
  | a :: pre, nif =>
    (nif.le32At 0 == a) && (a == 0 || toInt32 (nif.le32At 4) == 1)
      && KeyListT.badAxisAfter pre (nif.advance (KeyListT.axisSize a))

/-- A fixed-axis rotation track: outer count 1, tag 4, the padding float; a first axis
with one pair under nested tag 1; a second axis with sub-count 2 and nested tag 3; and
16 more bytes, the two pairs that this axis would hold. -/
def xyzBadSecondAxis : NIFStream :=
  NIFStream.ofBytes "a.nif"
    [1, 0, 0, 0, 4, 0, 0, 0, 0, 0, 0, 0,
     1, 0, 0, 0, 1, 0, 0, 0, 5, 0, 0, 0, 6, 0, 0, 0,
     2, 0, 0, 0, 3, 0, 0, 0,
     7, 0, 0, 0, 8, 0, 0, 0, 7, 0, 0, 0, 8, 0, 0, 0]

/-- The key that one iteration of the TBC loop leaves: time, value, tension, bias and
continuity, in this order, the last three as single floats. -/
def KeyListT.tbcKey {T : Type} (w : Nat) (decode : List Byte → T) (nif : NIFStream)
    (key : KeyT T) : KeyT T :=
  { key with mTime := F32.mk (nif.le32At 0), mValue := decode ((nif.advance 4).window w),
             mTension := F32.mk (nif.le32At (4 + w)),
             mBias := F32.mk (nif.le32At (4 + w + 4)),
             mContinuity := F32.mk (nif.le32At (4 + w + 8)) }

/-- A float track of one TBC key: time 5, value 1, tension 7, bias 8, continuity 9. -/
def tbcOneKey : NIFStream :=
  NIFStream.ofBytes "a.nif"
    [1, 0, 0, 0, 3, 0, 0, 0, 5, 0, 0, 0, 1, 0, 0, 0, 7, 0, 0, 0, 8, 0, 0, 0, 9, 0, 0, 0]

/-- The layout "consecutive axes with sub-counts `ns`, each complete in the data and
with nested tag 1 when its sub-count is not 0", read off the stream at the cursor. -/
def KeyListT.goodAxes : List Nat → NIFStream → Bool
  | [], _ => true
  | a :: rest, nif =>
    decide (nif.inp.pos + KeyListT.axisSize a ≤ nif.inp.data.length) && (nif.le32At 0 == a)
      && (a == 0 || toInt32 (nif.le32At 4) == 1)
      && KeyListT.goodAxes rest (nif.advance (KeyListT.axisSize a))

/-- A well-formed fixed-axis rotation track: outer count 1, tag 4, the padding float; a
first axis with two pairs under nested tag 1, an empty second axis, and a third axis
with one pair; one more byte follows the track. -/
def xyzWellFormed : NIFStream :=
  NIFStream.ofBytes "a.nif"
    [1, 0, 0, 0, 4, 0, 0, 0, 0, 0, 0, 0,
     2, 0, 0, 0, 1, 0, 0, 0, 5, 0, 0, 0, 6, 0, 0, 0, 7, 0, 0, 0, 8, 0, 0, 0,
     0, 0, 0, 0,
     1, 0, 0, 0, 1, 0, 0, 0, 3, 0, 0, 0, 4, 0, 0, 0,
     9]

/-! ## The record accessors of `NIFFile` -/

/-- `NIFFile::getRecord`: `records.at(index)` throws `std::out_of_range` when the index
is not below the size; the pointer found is asserted to be non-null and returned. -/
def NIFFile.getRecord (file : NIFFile) (index : Nat) : Except Error (Option Record) :=
  match file.records[index]? with
  | none => Except.error Error.out_of_range
  | some res =>
    if res = none then Except.error Error.assertion
    else Except.ok res

/-- `NIFFile::numRecords`. -/
def NIFFile.numRecords (file : NIFFile) : Nat :=
  file.records.length

/-- `NIFFile::getRoot`; the call `getRoot()` is `getRoot 0` (default argument). -/
def NIFFile.getRoot (file : NIFFile) (index : Nat) : Except Error (Option Record) :=
  match file.roots[index]? with
  | none => Except.error Error.out_of_range
  | some res =>
    if res = none then Except.error Error.assertion
    else Except.ok res

/-- `NIFFile::numRoots`. -/
def NIFFile.numRoots (file : NIFFile) : Nat :=
  file.roots.length

/-- A file with three records, the second of them a null pointer, and no root. -/
def fileWithNull : NIFFile :=
  { filename := "a.nif", cerr := [],
    records := [some (Record.mk 100), none, some (Record.mk 300)], roots := [] }

/-! ## The generic readers of `NIFStream` -/

/-- The primary template `NIFStream::get<T>()`: it throws a `std::runtime_error` whose
text names the type; `typeName` is `typeid(T).name()`. -/
def NIFStream.get {T : Type} (typeName : String) (nif : NIFStream) : Result T :=
  Result.exc (Error.runtime_error ("Can not read a <" ++ typeName ++ "> from a NIF File!  The get() function was called with the wrong template!")) nif

/-- The C++ class of a failure: what a `catch` clause or a caller can tell apart
without reading the message. -/
inductive ErrorClass where
  | std_runtime_error
  | std_out_of_range
  | assertion_failure
  | short_read
  | std_length_error
deriving DecidableEq, Repr

/-- The class of a failure. -/
def Error.cls : Error → ErrorClass
  | Error.runtime_error _ => ErrorClass.std_runtime_error
  | Error.shortRead => ErrorClass.short_read
  | Error.out_of_range => ErrorClass.std_out_of_range
  | Error.assertion => ErrorClass.assertion_failure
  | Error.length_error => ErrorClass.std_length_error

/-- Modelled from the spec: `NIFFile::getVersion` is called by `getIfVer` and is not
declared in the given niffile.hpp. The spec: the file has a detected format version,
an integer; the accessor returns the field `ver`. -/
def NIFFile.getVersion (file : NIFFile) : Int :=
  file.ver

/-- `NIFStream::getIfVer<T>(testVersion)`; `get` is the reader `get<T>`, `init` is `T()`.
The test compares an `int` with an `unsigned int`, so the version is converted to
`unsigned int` first. -/
def NIFStream.getIfVer {T : Type} (get : NIFStream → Result T) (init : T) (nif : NIFStream)
    (testVersion : Nat) : Result T :=
  if toUInt32 nif.file.getVersion = testVersion % 2 ^ 32 then
    get nif
  else
    Result.ok init nif

/-- A stream of the float 5 then the float 6, in a file of version 0x04000002. -/
def streamOfVersion : NIFStream :=
  { inp := { data := [5, 0, 0, 0, 6, 0, 0, 0], pos := 0, size_lt := by decide },
    file := { filename := "a.nif", cerr := [], ver := 0x04000002 } }

/-- The exception of a reader call, if it threw. -/
def Result.thrown {α : Type} : Result α → Option Error
  | Result.ok _ _ => none
  | Result.exc e _ => some e

/-- The stream at the end of a reader call. -/
def Result.stream {α : Type} : Result α → NIFStream
  | Result.ok _ nif => nif
  | Result.exc _ nif => nif

/-! ## The integer readers of `NIFStream` -/

/-- Modelled from the spec: `NIFStream::read_byte` is declared in nifstream.hpp and
defined outside the given sources. The spec: a 1-byte read consumes exactly 1 byte and
advances the cursor by 1; requesting more bytes than remain is a failure. -/
def NIFStream.read_byte (nif : NIFStream) : Result Nat :=
  if nif.inp.pos + 1 ≤ nif.inp.data.length then
    Result.ok (nif.byteAt 0) (nif.advance 1)
  else
    Result.exc Error.shortRead nif

/-- Modelled from the spec: `NIFStream::read_le16` is declared in nifstream.hpp and
defined outside the given sources. The spec: a 2-byte read consumes exactly 2 bytes,
advances the cursor by 2 and decodes little-endian; requesting more bytes than remain
is a failure. -/
def NIFStream.read_le16 (nif : NIFStream) : Result Nat :=
  if nif.inp.pos + 2 ≤ nif.inp.data.length then
    Result.ok (nif.byteAt 0 + 2 ^ 8 * nif.byteAt 1) (nif.advance 2)
  else
    Result.exc Error.shortRead nif

/-- Conversion of a `uint16_t` to `short` (two's complement). -/
def toInt16 (u : Nat) : Int :=
  if u % 2 ^ 16 < 2 ^ 15 then ((u % 2 ^ 16 : Nat) : Int) else ((u % 2 ^ 16 : Nat) : Int) - 2 ^ 16

/-- `char getChar() { return read_byte(); }`; the `char` is carried as its 8-bit
pattern (whether `char` is signed is left to the implementation). -/
def NIFStream.getChar (nif : NIFStream) : Result Nat :=
  nif.read_byte

/-- `short getShort() { return read_le16(); }` -/
def NIFStream.getShort (nif : NIFStream) : Result Int :=
  match nif.read_le16 with
  | Result.ok u nif1 => Result.ok (toInt16 u) nif1
  | Result.exc e nif1 => Result.exc e nif1

/-- `unsigned short getUShort() { return read_le16(); }` -/
def NIFStream.getUShort (nif : NIFStream) : Result Nat :=
  nif.read_le16

/-- `unsigned int getUInt() { return read_le32(); }` -/
def NIFStream.getUInt (nif : NIFStream) : Result Nat :=
  nif.read_le32

/-- The byte of a number below 256 (of its low 8 bits otherwise). -/
def toByte (v : Nat) : Byte :=
  ⟨v % 256, Nat.mod_lt v (by decide)⟩

/-- One byte, as a byte sequence. -/
def encode_byte (v : Nat) : List Byte :=
  [toByte v]

/-- The 2 bytes of a 16-bit value, assembled in little-endian order. -/
def encode_le16 (v : Nat) : List Byte :=
  [toByte v, toByte (v / 2 ^ 8)]

/-- The 4 bytes of a 32-bit value, assembled in little-endian order. -/
def encode_le32 (v : Nat) : List Byte :=
  [toByte v, toByte (v / 2 ^ 8), toByte (v / 2 ^ 16), toByte (v / 2 ^ 24)]

/-- A part of the content of a stream: the bytes given, or nothing when they are too
many (`2 ^ 62` or more) to be a part of a stream. -/
def fitting (l : List Byte) : List Byte :=
  if l.length < 2 ^ 62 then l else []

/-- A stream whose data are `pre`, then `enc`, then `rest` (each as far as it fits a
stream), with the cursor at the start of `enc`. -/
def streamAt (pre enc rest : List Byte) : NIFStream :=
  { inp :=
      { data := fitting pre ++ (fitting enc ++ fitting rest), pos := (fitting pre).length,
        size_lt := by
          have hfit : ∀ l : List Byte, (fitting l).length < 2 ^ 62 := by
            intro l
            unfold fitting
            split
            · assumption
            · decide
          have h1 := hfit pre
          have h2 := hfit enc
          have h3 := hfit rest
          simp only [List.length_append]
          omega },
    file := { filename := "a.nif", cerr := [] } }

/-! ## The cache guard of `NIFFile` -/

/-- Modelled from the spec: the cache behind `NIFFile::lockCache` and
`NIFFile::unlockCache`, which niffile.hpp declares and does not define. The spec: lock
and unlock bracket a region, are reentrant and explicitly paired; so the cache has a
lock depth. `lockCalls` and `unlockCalls` count the calls made so far. -/
structure CacheState where
  lockLevel : Nat
  lockCalls : Nat
  unlockCalls : Nat
deriving DecidableEq, Repr

/-- Modelled from the spec: `NIFFile::lockCache` is declared in niffile.hpp and defined
outside the given sources. The spec: it acquires the reentrant lock, one level deeper. -/
def NIFFile.lockCache (c : CacheState) : CacheState :=
  { lockLevel := c.lockLevel + 1, lockCalls := c.lockCalls + 1, unlockCalls := c.unlockCalls }

/-- Modelled from the spec: `NIFFile::unlockCache` is declared in niffile.hpp and
defined outside the given sources. The spec: it releases one level of the lock. -/
def NIFFile.unlockCache (c : CacheState) : CacheState :=
  { lockLevel := c.lockLevel - 1, lockCalls := c.lockCalls, unlockCalls := c.unlockCalls + 1 }

/-- `CacheLock () { lockCache (); }` -/
def NIFFile.CacheLock.construct (c : CacheState) : CacheState :=
  NIFFile.lockCache c

/-- `~CacheLock () { unlockCache (); }` -/
def NIFFile.CacheLock.destruct (c : CacheState) : CacheState :=
  NIFFile.unlockCache c

/-- A block `{ CacheLock lock; region }`: the guard is constructed on entry, the region
runs, and the guard is destroyed when the block is left, by a normal exit or by an
exception that the region throws (which goes on to the caller). -/
def NIFFile.CacheLock.scope {α : Type} (region : CacheState → Except Error α × CacheState)
    (c : CacheState) : Except Error α × CacheState :=
  let c1 := NIFFile.CacheLock.construct c
  match region c1 with
  | (Except.ok a, c2) => (Except.ok a, NIFFile.CacheLock.destruct c2)
  | (Except.error e, c2) => (Except.error e, NIFFile.CacheLock.destruct c2)

/-- A region that takes and releases the lock once more (a nested guard around nothing)
and then throws. -/
def throwingRegion (c : CacheState) : Except Error Nat × CacheState :=
  NIFFile.CacheLock.scope (fun c1 => (Except.error (Error.runtime_error "NIFFile Error: x"), c1)) c

/-- A track whose count field is 0xFFFFFFFF (the `int` -1, the `size_t` 2^64 - 1),
with tag 0. -/
def hugeCountTagZero : NIFStream :=
  NIFStream.ofBytes "a.nif" [255, 255, 255, 255, 0, 0, 0, 0]

/-- A track whose count field is 0xFFFFFFFF, with the unhandled tag 7. -/
def hugeCountTagSeven : NIFStream :=
  NIFStream.ofBytes "a.nif" [255, 255, 255, 255, 7, 0, 0, 0]

/-- A fixed-axis track whose outer count field is 0xFFFFFFFF: tag 4, the padding float,
and a first axis with sub-count 2 and nested tag 3. -/
def hugeCountXyzBad : NIFStream :=
  NIFStream.ofBytes "a.nif"
    [255, 255, 255, 255, 4, 0, 0, 0, 0, 0, 0, 0,
     2, 0, 0, 0, 3, 0, 0, 0,
     7, 0, 0, 0, 8, 0, 0, 0, 7, 0, 0, 0, 8, 0, 0, 0]

/-! ## The byte reader -/

@[simp]
theorem NIFStream.advance_pos (nif : NIFStream) (n : Nat) :
    (nif.advance n).inp.pos = nif.inp.pos + n := rfl

@[simp]
theorem NIFStream.advance_data (nif : NIFStream) (n : Nat) :
    (nif.advance n).inp.data = nif.inp.data := rfl

@[simp]
theorem NIFStream.advance_file (nif : NIFStream) (n : Nat) :
    (nif.advance n).file = nif.file := rfl

@[simp]
theorem NIFStream.advance_advance (nif : NIFStream) (m n : Nat) :
    (nif.advance m).advance n = nif.advance (m + n) := by
  simp [NIFStream.advance, Nat.add_assoc]

@[simp]
theorem NIFStream.advance_zero (nif : NIFStream) : nif.advance 0 = nif := rfl

@[simp]
theorem NIFStream.byteAt_advance (nif : NIFStream) (m k : Nat) :
    (nif.advance m).byteAt k = nif.byteAt (m + k) := by
  simp [NIFStream.byteAt, NIFStream.advance, Nat.add_assoc]

@[simp]
theorem NIFStream.le32At_advance (nif : NIFStream) (m off : Nat) :
    (nif.advance m).le32At off = nif.le32At (m + off) := by
  simp [NIFStream.le32At, Nat.add_assoc]

theorem NIFStream.byteAt_lt (nif : NIFStream) (k : Nat) : nif.byteAt k < 256 := by
  unfold NIFStream.byteAt
  split
  · rename_i b _
    exact b.isLt
  · decide

theorem NIFStream.le32At_lt (nif : NIFStream) (off : Nat) : nif.le32At off < 2 ^ 32 := by
  have h0 := nif.byteAt_lt off
  have h1 := nif.byteAt_lt (off + 1)
  have h2 := nif.byteAt_lt (off + 2)
  have h3 := nif.byteAt_lt (off + 3)
  unfold NIFStream.le32At
  omega

theorem NIFStream.read_le32_ok (nif : NIFStream) (h : nif.inp.pos + 4 ≤ nif.inp.data.length) :
    nif.read_le32 = Result.ok (nif.le32At 0) (nif.advance 4) := by
  simp [NIFStream.read_le32, h]

theorem NIFStream.read_le32_short (nif : NIFStream) (h : ¬ nif.inp.pos + 4 ≤ nif.inp.data.length) :
    nif.read_le32 = Result.exc Error.shortRead nif := by
  simp [NIFStream.read_le32, h]

theorem NIFStream.getInt_ok (nif : NIFStream) (h : nif.inp.pos + 4 ≤ nif.inp.data.length) :
    nif.getInt = Result.ok (toInt32 (nif.le32At 0)) (nif.advance 4) := by
  simp [NIFStream.getInt, nif.read_le32_ok h]

theorem NIFStream.getInt_short (nif : NIFStream) (h : ¬ nif.inp.pos + 4 ≤ nif.inp.data.length) :
    nif.getInt = Result.exc Error.shortRead nif := by
  simp [NIFStream.getInt, nif.read_le32_short h]

theorem NIFStream.getFloat_ok (nif : NIFStream) (h : nif.inp.pos + 4 ≤ nif.inp.data.length) :
    nif.getFloat = Result.ok (F32.mk (nif.le32At 0)) (nif.advance 4) := by
  simp [NIFStream.getFloat, NIFStream.read_le32f, nif.read_le32_ok h]

theorem NIFStream.getFloat_short (nif : NIFStream) (h : ¬ nif.inp.pos + 4 ≤ nif.inp.data.length) :
    nif.getFloat = Result.exc Error.shortRead nif := by
  simp [NIFStream.getFloat, NIFStream.read_le32f, nif.read_le32_short h]

/-! ## Integer conversions -/

theorem toInt32_of_lt {u : Nat} (h : u < 2 ^ 31) : toInt32 u = (u : Int) := by
  unfold toInt32
  have h1 : u % 2 ^ 32 = u := Nat.mod_eq_of_lt (by omega)
  rw [h1, if_pos h]

theorem toSizeT_toInt32_of_lt {u : Nat} (h : u < 2 ^ 31) : toSizeT (toInt32 u) = u := by
  rw [toInt32_of_lt h]
  unfold toSizeT
  omega

theorem toSizeT_toInt32_eq_zero {u : Nat} (h : u < 2 ^ 32) : toSizeT (toInt32 u) = 0 ↔ u = 0 := by
  unfold toSizeT toInt32
  have h1 : u % 2 ^ 32 = u := Nat.mod_eq_of_lt h
  rw [h1]
  split <;> omega

theorem KeyListT.countOf_eq_zero (nif : NIFStream) : KeyListT.countOf nif = 0 ↔ nif.le32At 0 = 0 :=
  toSizeT_toInt32_eq_zero (nif.le32At_lt 0)

theorem KeyListT.countOf_of_lt (nif : NIFStream) (h : nif.le32At 0 < 2 ^ 31) :
    KeyListT.countOf nif = nif.le32At 0 :=
  toSizeT_toInt32_of_lt h

/-! ## Vectors of keys -/

theorem lt_length_of_getElem? {α : Type} {l : List α} {i : Nat} {a : α} (h : l[i]? = some a) :
    i < l.length := by
  rcases List.getElem?_eq_some.1 h with ⟨hlt, _⟩
  exact hlt

theorem updateKey_of_some {α : Type} {keys : List α} {i : Nat} {k : α} (f : α → α)
    (h : keys[i]? = some k) : updateKey keys i f = keys.set i (f k) := by
  simp [updateKey, h]

theorem updateKey_length {α : Type} (keys : List α) (i : Nat) (f : α → α) :
    (updateKey keys i f).length = keys.length := by
  unfold updateKey
  split <;> simp

theorem updateKey_set {α : Type} {keys : List α} {i : Nat} {k : α} (a : α) (f : α → α)
    (h : keys[i]? = some k) : updateKey (keys.set i a) i f = keys.set i (f a) := by
  have hlt := lt_length_of_getElem? h
  have h1 : (keys.set i a)[i]? = some a := by
    rw [List.getElem?_set]; simp [hlt]
  rw [updateKey_of_some f h1, List.set_set]

/-! ## The loop over the keys -/

/-- When every run of the body on at least `b` remaining bytes returns normally, moves
the cursor by `b` and rewrites key `i` alone (to `g` of the stream at the start of the
run and of the old key), the loop over `n` keys from index `i` returns normally, moves
the cursor by `n * b`, and rewrites exactly the keys `i .. i + n - 1`, key `k` from the
`(k - i)`-th block. -/
theorem KeyListT.forKeys_ok {T : Type} (body : Nat → KeyListT T → NIFStream → Outcome T)
    (b : Nat) (g : NIFStream → KeyT T → KeyT T)
    (hbody : ∀ (i : Nat) (self : KeyListT T) (nif : NIFStream) (key : KeyT T),
      nif.inp.pos + b ≤ nif.inp.data.length → self.mKeys[i]? = some key →
      body i self nif = ⟨none, { self with mKeys := self.mKeys.set i (g nif key) }, nif.advance b⟩) :
    ∀ (n i : Nat) (self : KeyListT T) (nif : NIFStream),
      nif.inp.pos + n * b ≤ nif.inp.data.length → i + n ≤ self.mKeys.length →
      (KeyListT.forKeys body n i self nif).thrown = none ∧
      (KeyListT.forKeys body n i self nif).nif = nif.advance (n * b) ∧
      (KeyListT.forKeys body n i self nif).self.mInterpolationType = self.mInterpolationType ∧
      (KeyListT.forKeys body n i self nif).self.mKeys.length = self.mKeys.length ∧
      ∀ k : Nat, (KeyListT.forKeys body n i self nif).self.mKeys[k]? =
        if i ≤ k ∧ k < i + n then (self.mKeys[k]?).map (g (nif.advance ((k - i) * b)))
        else self.mKeys[k]? := by
  intro n
  induction n with
  | zero =>
    intro i self nif _ _
    refine ⟨rfl, ?_, rfl, rfl, ?_⟩
    · simp [KeyListT.forKeys]
    · intro k
      have h0 : ¬ (i ≤ k ∧ k < i + 0) := by omega
      rw [if_neg h0]
      rfl
  | succ n ih =>
    intro i self nif hbytes hlen
    have hi : i < self.mKeys.length := by omega
    have hkey : self.mKeys[i]? = some self.mKeys[i] := List.getElem?_eq_getElem hi
    have hb : nif.inp.pos + b ≤ nif.inp.data.length := by
      have : (n + 1) * b = n * b + b := by ring
      omega
    have hstep : KeyListT.forKeys body (n + 1) i self nif =
        KeyListT.forKeys body n (i + 1)
          { self with mKeys := self.mKeys.set i (g nif self.mKeys[i]) } (nif.advance b) := by
      simp only [KeyListT.forKeys, hbody i self nif _ hb hkey]
    have hbytes1 : (nif.advance b).inp.pos + n * b ≤ (nif.advance b).inp.data.length := by
      have : (n + 1) * b = n * b + b := by ring
      simp only [NIFStream.advance_pos, NIFStream.advance_data]
      omega
    have hlen1 : (i + 1) + n ≤
        ({ self with mKeys := self.mKeys.set i (g nif self.mKeys[i]) } : KeyListT T).mKeys.length := by
      simp only [List.length_set]; omega
    obtain ⟨h1, h2, h3, h4, h5⟩ := ih (i + 1) _ _ hbytes1 hlen1
    rw [hstep]
    refine ⟨h1, ?_, h3, ?_, ?_⟩
    · rw [h2, NIFStream.advance_advance]
      congr 1; ring
    · rw [h4]; simp
    · intro k
      rw [h5 k]
      by_cases hk : k = i
      · subst hk
        have h6 : ¬ (k + 1 ≤ k ∧ k < k + 1 + n) := by omega
        have h7 : k ≤ k ∧ k < k + (n + 1) := by omega
        rw [if_neg h6, if_pos h7, List.getElem?_set]
        simp [hi]
      · by_cases hr : i + 1 ≤ k ∧ k < i + 1 + n
        · have h7 : i ≤ k ∧ k < i + (n + 1) := by omega
          rw [if_pos hr, if_pos h7, List.getElem?_set_ne (Ne.symm hk), NIFStream.advance_advance]
          have h8 : b + (k - (i + 1)) * b = (k - i) * b := by
            have : k - i = (k - (i + 1)) + 1 := by omega
            rw [this]; ring
          rw [h8]
        · have h7 : ¬ (i ≤ k ∧ k < i + (n + 1)) := by omega
          rw [if_neg hr, if_neg h7, List.getElem?_set_ne (Ne.symm hk)]

theorem KeyListT.forKeys_benign {T : Type} (body : Nat → KeyListT T → NIFStream → Outcome T)
    (hbody : ∀ (i : Nat) (self : KeyListT T) (nif : NIFStream), (body i self nif).Benign) :
    ∀ (n i : Nat) (self : KeyListT T) (nif : NIFStream),
      (KeyListT.forKeys body n i self nif).Benign := by
  intro n
  induction n with
  | zero => intro i self nif; exact Or.inl rfl
  | succ n ih =>
    intro i self nif
    have hb := hbody i self nif
    unfold KeyListT.forKeys
    rcases hout : body i self nif with ⟨thrown, self1, nif1⟩
    rw [hout] at hb
    cases thrown with
    | none => exact ih (i + 1) self1 nif1
    | some e => exact hb

/-! ## One iteration of each branch -/

theorem ValueType.FixedWidth.getValue_ok {T : Type} {vt : ValueType T} {w : Nat}
    {decode : List Byte → T} (hw : vt.FixedWidth w decode) (nif : NIFStream)
    (h : nif.inp.pos + w ≤ nif.inp.data.length) :
    vt.getValue nif = Result.ok (decode (nif.window w)) (nif.advance w) := by
  rw [hw nif, if_pos h]

theorem ValueType.FixedWidth.getValue_short {T : Type} {vt : ValueType T} {w : Nat}
    {decode : List Byte → T} (hw : vt.FixedWidth w decode) (nif : NIFStream)
    (h : ¬ nif.inp.pos + w ≤ nif.inp.data.length) :
    vt.getValue nif = Result.exc Error.shortRead nif := by
  rw [hw nif, if_neg h]

theorem KeyListT.linearBody_ok {T : Type} {vt : ValueType T} {w : Nat} {decode : List Byte → T}
    (hw : vt.FixedWidth w decode) (i : Nat) (self : KeyListT T) (nif : NIFStream) (key : KeyT T)
    (hb : nif.inp.pos + (4 + w) ≤ nif.inp.data.length) (hkey : self.mKeys[i]? = some key) :
    KeyListT.linearBody vt i self nif =
      ⟨none, { self with mKeys := self.mKeys.set i (KeyListT.linearKey w decode nif key) },
        nif.advance (4 + w)⟩ := by
  have h1 : nif.inp.pos + 4 ≤ nif.inp.data.length := by omega
  have h2 : (nif.advance 4).inp.pos + w ≤ (nif.advance 4).inp.data.length := by
    simp only [NIFStream.advance_pos, NIFStream.advance_data]; omega
  unfold KeyListT.linearBody
  simp only [nif.getFloat_ok h1, hw.getValue_ok _ h2, updateKey_of_some _ hkey,
    updateKey_set _ _ hkey, NIFStream.advance_advance, KeyListT.linearKey]

theorem KeyListT.linearBody_benign {T : Type} {vt : ValueType T} {w : Nat}
    {decode : List Byte → T} (hw : vt.FixedWidth w decode) (i : Nat) (self : KeyListT T)
    (nif : NIFStream) : (KeyListT.linearBody vt i self nif).Benign := by
  unfold KeyListT.linearBody
  by_cases h1 : nif.inp.pos + 4 ≤ nif.inp.data.length
  · by_cases h2 : (nif.advance 4).inp.pos + w ≤ (nif.advance 4).inp.data.length
    · simp [nif.getFloat_ok h1, hw.getValue_ok _ h2, Outcome.Benign]
    · simp [nif.getFloat_ok h1, hw.getValue_short _ h2, Outcome.Benign]
  · simp [nif.getFloat_short h1, Outcome.Benign]

theorem KeyListT.quadraticBody_ok {T : Type} {vt : ValueType T} {w : Nat}
    {decode : List Byte → T} (hw : vt.FixedWidth w decode) (hq : vt.isQuaternion = false)
    (i : Nat) (self : KeyListT T) (nif : NIFStream) (key : KeyT T)
    (hb : nif.inp.pos + (4 + 3 * w) ≤ nif.inp.data.length) (hkey : self.mKeys[i]? = some key) :
    KeyListT.quadraticBody vt i self nif =
      ⟨none, { self with mKeys := self.mKeys.set i (KeyListT.quadraticKey w decode nif key) },
        nif.advance (4 + 3 * w)⟩ := by
  have h1 : nif.inp.pos + 4 ≤ nif.inp.data.length := by omega
  have h2 : (nif.advance 4).inp.pos + w ≤ (nif.advance 4).inp.data.length := by
    simp only [NIFStream.advance_pos, NIFStream.advance_data]; omega
  have h3 : (nif.advance (4 + w)).inp.pos + w ≤ (nif.advance (4 + w)).inp.data.length := by
    simp only [NIFStream.advance_pos, NIFStream.advance_data]; omega
  have h4 : (nif.advance (4 + 2 * w)).inp.pos + w ≤ (nif.advance (4 + 2 * w)).inp.data.length := by
    simp only [NIFStream.advance_pos, NIFStream.advance_data]; omega
  have e2 : 4 + w + w = 4 + 2 * w := by ring
  have e3 : 4 + 2 * w + w = 4 + 3 * w := by ring
  unfold KeyListT.quadraticBody
  simp only [nif.getFloat_ok h1, hw.getValue_ok _ h2, hw.getValue_ok _ h3, hw.getValue_ok _ h4,
    updateKey_of_some _ hkey, updateKey_set _ _ hkey, NIFStream.advance_advance, hq, if_true, e2, e3,
    KeyListT.quadraticKey]

theorem KeyListT.quadraticBody_quaternion_ok {T : Type} {vt : ValueType T} {w : Nat}
    {decode : List Byte → T} (hw : vt.FixedWidth w decode) (hq : vt.isQuaternion = true)
    (i : Nat) (self : KeyListT T) (nif : NIFStream) (key : KeyT T)
    (hb : nif.inp.pos + (4 + w) ≤ nif.inp.data.length) (hkey : self.mKeys[i]? = some key) :
    KeyListT.quadraticBody vt i self nif =
      ⟨none, { self with mKeys := self.mKeys.set i (KeyListT.linearKey w decode nif key) },
        nif.advance (4 + w)⟩ := by
  have h1 : nif.inp.pos + 4 ≤ nif.inp.data.length := by omega
  have h2 : (nif.advance 4).inp.pos + w ≤ (nif.advance 4).inp.data.length := by
    simp only [NIFStream.advance_pos, NIFStream.advance_data]; omega
  unfold KeyListT.quadraticBody
  simp [nif.getFloat_ok h1, hw.getValue_ok _ h2, updateKey_of_some _ hkey,
    updateKey_set _ _ hkey, NIFStream.advance_advance, hq, KeyListT.linearKey]

theorem KeyListT.quadraticBody_benign {T : Type} {vt : ValueType T} {w : Nat}
    {decode : List Byte → T} (hw : vt.FixedWidth w decode) (i : Nat) (self : KeyListT T)
    (nif : NIFStream) : (KeyListT.quadraticBody vt i self nif).Benign := by
  unfold KeyListT.quadraticBody
  by_cases h1 : nif.inp.pos + 4 ≤ nif.inp.data.length
  · by_cases h2 : (nif.advance 4).inp.pos + w ≤ (nif.advance 4).inp.data.length
    · by_cases hq : vt.isQuaternion = false
      · by_cases h3 : (nif.advance (4 + w)).inp.pos + w ≤ (nif.advance (4 + w)).inp.data.length
        · by_cases h4 : (nif.advance (4 + w + w)).inp.pos + w
              ≤ (nif.advance (4 + w + w)).inp.data.length
          · simp [nif.getFloat_ok h1, hw.getValue_ok _ h2, hw.getValue_ok _ h3,
              hw.getValue_ok _ h4, Outcome.Benign, hq]
          · simp [nif.getFloat_ok h1, hw.getValue_ok _ h2, hw.getValue_ok _ h3,
              hw.getValue_short _ h4, Outcome.Benign, hq]
        · simp [nif.getFloat_ok h1, hw.getValue_ok _ h2, hw.getValue_short _ h3,
            Outcome.Benign, hq]
      · simp [nif.getFloat_ok h1, hw.getValue_ok _ h2, Outcome.Benign, hq]
    · simp [nif.getFloat_ok h1, hw.getValue_short _ h2, Outcome.Benign]
  · simp [nif.getFloat_short h1, Outcome.Benign]

theorem KeyListT.tbcBody_benign {T : Type} {vt : ValueType T} {w : Nat}
    {decode : List Byte → T} (hw : vt.FixedWidth w decode) (i : Nat) (self : KeyListT T)
    (nif : NIFStream) : (KeyListT.tbcBody vt i self nif).Benign := by
  unfold KeyListT.tbcBody
  by_cases h1 : nif.inp.pos + 4 ≤ nif.inp.data.length
  · by_cases h2 : (nif.advance 4).inp.pos + w ≤ (nif.advance 4).inp.data.length
    · by_cases h3 : (nif.advance (4 + w)).inp.pos + 4 ≤ (nif.advance (4 + w)).inp.data.length
      · by_cases h4 : (nif.advance (4 + w + 4)).inp.pos + 4
            ≤ (nif.advance (4 + w + 4)).inp.data.length
        · by_cases h5 : (nif.advance (4 + w + 4 + 4)).inp.pos + 4
              ≤ (nif.advance (4 + w + 4 + 4)).inp.data.length
          · simp [nif.getFloat_ok h1, hw.getValue_ok _ h2, NIFStream.getFloat_ok _ h3,
              NIFStream.getFloat_ok _ h4, NIFStream.getFloat_ok _ h5, Outcome.Benign]
          · simp [nif.getFloat_ok h1, hw.getValue_ok _ h2, NIFStream.getFloat_ok _ h3,
              NIFStream.getFloat_ok _ h4, NIFStream.getFloat_short _ h5, Outcome.Benign]
        · simp [nif.getFloat_ok h1, hw.getValue_ok _ h2, NIFStream.getFloat_ok _ h3,
            NIFStream.getFloat_short _ h4, Outcome.Benign]
      · simp [nif.getFloat_ok h1, hw.getValue_ok _ h2, NIFStream.getFloat_short _ h3,
          Outcome.Benign]
    · simp [nif.getFloat_ok h1, hw.getValue_short _ h2, Outcome.Benign]
  · simp [nif.getFloat_short h1, Outcome.Benign]

/-! ## The header of a track -/

theorem KeyListT.read_skipped {T : Type} (vt : ValueType T) (realToString : F32 → String)
    (self : KeyListT T) (nif : NIFStream)
    (h4 : nif.inp.pos + 4 ≤ nif.inp.data.length) (h0 : KeyListT.countOf nif = 0) :
    KeyListT.read vt realToString self nif false = ⟨none, self, nif.advance 4⟩ := by
  unfold KeyListT.countOf at h0
  simp [KeyListT.read, nif.getInt_ok h4, h0]

theorem KeyListT.countOf_range (nif : NIFStream) :
    KeyListT.countOf nif < 2 ^ 31 ∨ 2 ^ 64 - 2 ^ 31 ≤ KeyListT.countOf nif := by
  have h := nif.le32At_lt 0
  unfold KeyListT.countOf toSizeT toInt32
  have h1 : nif.le32At 0 % 2 ^ 32 = nif.le32At 0 := Nat.mod_eq_of_lt h
  rw [h1]
  split <;> omega

theorem KeyListT.countOf_le_maxSize_of_lt {T : Type} (vt : ValueType T) (nif : NIFStream)
    (h : nif.le32At 0 < 2 ^ 31) : KeyListT.countOf nif ≤ vt.maxSize := by
  have h1 := vt.maxSize_ge
  rw [KeyListT.countOf_of_lt nif h]
  omega

theorem KeyListT.maxSize_lt_countOf_of_ge {T : Type} (vt : ValueType T) (nif : NIFStream)
    (h : 2 ^ 31 ≤ nif.le32At 0) : vt.maxSize < KeyListT.countOf nif := by
  have h1 := vt.maxSize_lt
  have h2 := nif.le32At_lt 0
  have h3 : 2 ^ 64 - 2 ^ 31 ≤ KeyListT.countOf nif := by
    unfold KeyListT.countOf toSizeT toInt32
    have h4 : nif.le32At 0 % 2 ^ 32 = nif.le32At 0 := Nat.mod_eq_of_lt h2
    rw [h4]
    split <;> omega
  omega

theorem KeyListT.countOf_le_maxSize_of_bytes {T : Type} (vt : ValueType T) (nif : NIFStream)
    (b : Nat) (hb : 4 ≤ b)
    (h : nif.inp.pos + (8 + KeyListT.countOf nif * b) ≤ nif.inp.data.length) :
    KeyListT.countOf nif ≤ vt.maxSize := by
  have h1 := vt.maxSize_ge
  have h2 := nif.inp.size_lt
  have h3 : KeyListT.countOf nif * 4 ≤ KeyListT.countOf nif * b := Nat.mul_le_mul_left _ hb
  rcases KeyListT.countOf_range nif with h4 | h4
  · omega
  · omega

theorem KeyListT.read_length_error {T : Type} (vt : ValueType T) (realToString : F32 → String)
    (self : KeyListT T) (nif : NIFStream) (force : Bool)
    (h8 : nif.inp.pos + 8 ≤ nif.inp.data.length)
    (hdec : KeyListT.countOf nif ≠ 0 ∨ force = true)
    (hmax : vt.maxSize < KeyListT.countOf nif) :
    KeyListT.read vt realToString self nif force =
      ⟨some Error.length_error, { self with mInterpolationType := KeyListT.tagOf nif },
        nif.advance 8⟩ := by
  have h4 : nif.inp.pos + 4 ≤ nif.inp.data.length := by omega
  have h4b : (nif.advance 4).inp.pos + 4 ≤ (nif.advance 4).inp.data.length := by
    simp only [NIFStream.advance_pos, NIFStream.advance_data]; omega
  have hskip : ¬ (toSizeT (toInt32 (nif.le32At 0)) = 0 ∧ force = false) := by
    rintro ⟨hc, hf⟩
    rcases hdec with h | h
    · exact h hc
    · rw [hf] at h; exact Bool.noConfusion h
  have hm : vt.maxSize < toSizeT (toInt32 (nif.le32At 0)) := hmax
  unfold KeyListT.read
  simp only [nif.getInt_ok h4, (nif.advance 4).getInt_ok h4b, hskip, if_false, hm, if_true,
    NIFStream.le32At_advance, NIFStream.advance_advance, KeyListT.tagOf]

theorem KeyListT.read_decoded {T : Type} (vt : ValueType T) (realToString : F32 → String)
    (self : KeyListT T) (nif : NIFStream) (force : Bool)
    (h8 : nif.inp.pos + 8 ≤ nif.inp.data.length)
    (hdec : KeyListT.countOf nif ≠ 0 ∨ force = true)
    (hmax : KeyListT.countOf nif ≤ vt.maxSize) :
    KeyListT.read vt realToString self nif force =
      if KeyListT.tagOf nif = KeyListT.sLinearInterpolation then
        KeyListT.readLinear vt (KeyListT.countOf nif) (KeyListT.afterHeader vt self nif) (nif.advance 8)
      else if KeyListT.tagOf nif = KeyListT.sQuadraticInterpolation then
        KeyListT.readQuadratic vt (KeyListT.countOf nif) (KeyListT.afterHeader vt self nif) (nif.advance 8)
      else if KeyListT.tagOf nif = KeyListT.sTBCInterpolation then
        KeyListT.readTBC vt (KeyListT.countOf nif) (KeyListT.afterHeader vt self nif) (nif.advance 8)
      else if KeyListT.tagOf nif = KeyListT.sXYZInterpolation then
        KeyListT.readXYZ realToString (KeyListT.countOf nif) (KeyListT.afterHeader vt self nif) (nif.advance 8)
      else if KeyListT.tagOf nif = 0 then
        if KeyListT.countOf nif ≠ 0 then
          ⟨some (nif.file.fail "Interpolation type 0 doesn't work with keys"),
            KeyListT.afterHeader vt self nif, nif.advance 8⟩
        else
          ⟨none, KeyListT.afterHeader vt self nif, nif.advance 8⟩
      else
        ⟨some (nif.file.fail ("Unhandled interpolation type: " ++ toString (KeyListT.tagOf nif))),
          KeyListT.afterHeader vt self nif, nif.advance 8⟩ := by
  have h4 : nif.inp.pos + 4 ≤ nif.inp.data.length := by omega
  have h4b : (nif.advance 4).inp.pos + 4 ≤ (nif.advance 4).inp.data.length := by
    simp only [NIFStream.advance_pos, NIFStream.advance_data]; omega
  have hskip : ¬ (toSizeT (toInt32 (nif.le32At 0)) = 0 ∧ force = false) := by
    rintro ⟨hc, hf⟩
    rcases hdec with h | h
    · exact h hc
    · rw [hf] at h; exact Bool.noConfusion h
  have hm : ¬ vt.maxSize < toSizeT (toInt32 (nif.le32At 0)) := by
    unfold KeyListT.countOf at hmax; omega
  unfold KeyListT.read
  simp only [nif.getInt_ok h4, (nif.advance 4).getInt_ok h4b, hskip, if_false, hm,
    NIFStream.le32At_advance, NIFStream.advance_advance, NIFStream.advance_file,
    KeyListT.afterHeader, KeyListT.tagOf, KeyListT.countOf]

theorem KeyListT.read_tag_linear {T : Type} (vt : ValueType T) (realToString : F32 → String)
    (self : KeyListT T) (nif : NIFStream) (force : Bool)
    (h8 : nif.inp.pos + 8 ≤ nif.inp.data.length)
    (hdec : KeyListT.countOf nif ≠ 0 ∨ force = true)
    (hmax : KeyListT.countOf nif ≤ vt.maxSize) (htag : KeyListT.tagOf nif = 1) :
    KeyListT.read vt realToString self nif force =
      KeyListT.forKeys (KeyListT.linearBody vt) (KeyListT.countOf nif) 0
        (KeyListT.afterHeader vt self nif) (nif.advance 8) := by
  rw [KeyListT.read_decoded vt realToString self nif force h8 hdec hmax,
    if_pos (show KeyListT.tagOf nif = KeyListT.sLinearInterpolation from htag)]
  rfl

theorem KeyListT.read_tag_quadratic {T : Type} (vt : ValueType T) (realToString : F32 → String)
    (self : KeyListT T) (nif : NIFStream) (force : Bool)
    (h8 : nif.inp.pos + 8 ≤ nif.inp.data.length)
    (hdec : KeyListT.countOf nif ≠ 0 ∨ force = true)
    (hmax : KeyListT.countOf nif ≤ vt.maxSize) (htag : KeyListT.tagOf nif = 2) :
    KeyListT.read vt realToString self nif force =
      KeyListT.forKeys (KeyListT.quadraticBody vt) (KeyListT.countOf nif) 0
        (KeyListT.afterHeader vt self nif) (nif.advance 8) := by
  rw [KeyListT.read_decoded vt realToString self nif force h8 hdec hmax,
    if_neg (by rw [htag]; decide),
    if_pos (show KeyListT.tagOf nif = KeyListT.sQuadraticInterpolation from htag)]
  rfl

theorem KeyListT.read_tag_tbc {T : Type} (vt : ValueType T) (realToString : F32 → String)
    (self : KeyListT T) (nif : NIFStream) (force : Bool)
    (h8 : nif.inp.pos + 8 ≤ nif.inp.data.length)
    (hdec : KeyListT.countOf nif ≠ 0 ∨ force = true)
    (hmax : KeyListT.countOf nif ≤ vt.maxSize) (htag : KeyListT.tagOf nif = 3) :
    KeyListT.read vt realToString self nif force =
      KeyListT.forKeys (KeyListT.tbcBody vt) (KeyListT.countOf nif) 0
        (KeyListT.afterHeader vt self nif) (nif.advance 8) := by
  rw [KeyListT.read_decoded vt realToString self nif force h8 hdec hmax,
    if_neg (by rw [htag]; decide), if_neg (by rw [htag]; decide),
    if_pos (show KeyListT.tagOf nif = KeyListT.sTBCInterpolation from htag)]
  rfl

theorem KeyListT.read_tag_xyz {T : Type} (vt : ValueType T) (realToString : F32 → String)
    (self : KeyListT T) (nif : NIFStream) (force : Bool)
    (h8 : nif.inp.pos + 8 ≤ nif.inp.data.length)
    (hdec : KeyListT.countOf nif ≠ 0 ∨ force = true)
    (hmax : KeyListT.countOf nif ≤ vt.maxSize) (htag : KeyListT.tagOf nif = 4) :
    KeyListT.read vt realToString self nif force =
      KeyListT.readXYZ realToString (KeyListT.countOf nif) (KeyListT.afterHeader vt self nif)
        (nif.advance 8) := by
  rw [KeyListT.read_decoded vt realToString self nif force h8 hdec hmax,
    if_neg (by rw [htag]; decide), if_neg (by rw [htag]; decide),
    if_neg (by rw [htag]; decide),
    if_pos (show KeyListT.tagOf nif = KeyListT.sXYZInterpolation from htag)]

theorem resize_zero {α : Type} (v : List α) (d : α) : resize v 0 d = [] := by
  simp [resize]

theorem resize_length {α : Type} (v : List α) (n : Nat) (d : α) : (resize v n d).length = n := by
  simp only [resize, List.length_append, List.length_take, List.length_replicate]
  omega

/-! ## The value types of the track lists -/

theorem NIFStream.window_getD (nif : NIFStream) (n k : Nat) (h : k < n) :
    ((nif.window n).getD k 0).val = nif.byteAt k := by
  unfold NIFStream.window NIFStream.byteAt
  rw [List.getD_eq_getElem?_getD, List.getElem?_take, if_pos h, List.getElem?_drop]
  cases nif.inp.data[nif.inp.pos + k]? <;> rfl

theorem NIFStream.le32_window (nif : NIFStream) (n k : Nat) (h : k + 4 ≤ n) :
    le32 (nif.window n) k = nif.le32At k := by
  unfold le32 NIFStream.le32At
  rw [nif.window_getD n k (by omega), nif.window_getD n (k + 1) (by omega),
    nif.window_getD n (k + 2) (by omega), nif.window_getD n (k + 3) (by omega)]

theorem floatType_fixedWidth : floatType.FixedWidth 4 decodeFloat := by
  intro nif
  show nif.getFloat = _
  by_cases h : nif.inp.pos + 4 ≤ nif.inp.data.length
  · rw [nif.getFloat_ok h, if_pos h]
    simp only [decodeFloat, nif.le32_window 4 0 (Nat.le_refl 4)]
  · rw [nif.getFloat_short h, if_neg h]

theorem quaternionType_fixedWidth : quaternionType.FixedWidth 16 decodeQuaternion :=
  fun _ => rfl

/-! ## A whole branch -/

/-- The loop of a branch, run on the track and the stream that the header leaves: with
`b` bytes per key available for all `count` keys it returns normally just after the
last block, and key `i` is `g` of the stream at block `i` and of the key that `resize`
put at index `i`. -/
theorem KeyListT.forKeys_afterHeader {T : Type} (vt : ValueType T) (self : KeyListT T)
    (nif : NIFStream) (body : Nat → KeyListT T → NIFStream → Outcome T)
    (b : Nat) (g : NIFStream → KeyT T → KeyT T)
    (hbody : ∀ (i : Nat) (self : KeyListT T) (nif : NIFStream) (key : KeyT T),
      nif.inp.pos + b ≤ nif.inp.data.length → self.mKeys[i]? = some key →
      body i self nif = ⟨none, { self with mKeys := self.mKeys.set i (g nif key) }, nif.advance b⟩)
    (hbytes : nif.inp.pos + (8 + KeyListT.countOf nif * b) ≤ nif.inp.data.length) :
    (KeyListT.forKeys body (KeyListT.countOf nif) 0 (KeyListT.afterHeader vt self nif)
      (nif.advance 8)).thrown = none ∧
    (KeyListT.forKeys body (KeyListT.countOf nif) 0 (KeyListT.afterHeader vt self nif)
      (nif.advance 8)).nif = nif.advance (8 + KeyListT.countOf nif * b) ∧
    (KeyListT.forKeys body (KeyListT.countOf nif) 0 (KeyListT.afterHeader vt self nif)
      (nif.advance 8)).self.mInterpolationType = KeyListT.tagOf nif ∧
    (KeyListT.forKeys body (KeyListT.countOf nif) 0 (KeyListT.afterHeader vt self nif)
      (nif.advance 8)).self.mKeys.length = KeyListT.countOf nif ∧
    ∀ i : Nat, i < KeyListT.countOf nif →
      ∃ key0 : KeyT T, (resize self.mKeys (KeyListT.countOf nif) vt.initKey)[i]? = some key0 ∧
        (KeyListT.forKeys body (KeyListT.countOf nif) 0 (KeyListT.afterHeader vt self nif)
          (nif.advance 8)).self.mKeys[i]? = some (g (nif.advance (8 + i * b)) key0) := by
  have hlen : (KeyListT.afterHeader vt self nif).mKeys.length = KeyListT.countOf nif :=
    resize_length _ _ _
  have hb : (nif.advance 8).inp.pos + KeyListT.countOf nif * b ≤ (nif.advance 8).inp.data.length := by
    simp only [NIFStream.advance_pos, NIFStream.advance_data]; omega
  obtain ⟨h1, h2, h3, h4, h5⟩ := KeyListT.forKeys_ok body b g hbody (KeyListT.countOf nif) 0
    (KeyListT.afterHeader vt self nif) (nif.advance 8) hb (by omega)
  refine ⟨h1, ?_, h3, ?_, ?_⟩
  · rw [h2, NIFStream.advance_advance]
  · rw [h4, hlen]
  · intro i hi
    have hi2 : i < (resize self.mKeys (KeyListT.countOf nif) vt.initKey).length := by
      rw [resize_length]; exact hi
    refine ⟨(resize self.mKeys (KeyListT.countOf nif) vt.initKey)[i],
      List.getElem?_eq_getElem hi2, ?_⟩
    have hr : 0 ≤ i ∧ i < 0 + KeyListT.countOf nif := by omega
    rw [h5 i, if_pos hr]
    show Option.map _ (resize self.mKeys (KeyListT.countOf nif) vt.initKey)[i]? = _
    rw [List.getElem?_eq_getElem hi2, Option.map_some', NIFStream.advance_advance, Nat.sub_zero]

/-! ## Claims about the header and the tag dispatch -/

/-- C2: when the 32-bit count field is 0 and `force` is false, `read` returns normally
(the track is absent), the cursor has moved by exactly the 4 bytes of the count, the
rest of the stream is untouched, and the track (tag and keys) is unchanged. -/
theorem KeyListT.read_count_zero_unforced {T : Type} (vt : ValueType T)
    (realToString : F32 → String) (self : KeyListT T) (nif : NIFStream)
    (h4 : nif.inp.pos + 4 ≤ nif.inp.data.length) (h0 : nif.le32At 0 = 0) :
    (KeyListT.read vt realToString self nif false).thrown = none ∧
    (KeyListT.read vt realToString self nif false).nif.inp.pos = nif.inp.pos + 4 ∧
    (KeyListT.read vt realToString self nif false).nif = nif.advance 4 ∧
    (KeyListT.read vt realToString self nif false).self = self := by
  rw [KeyListT.read_skipped vt realToString self nif h4 ((KeyListT.countOf_eq_zero nif).2 h0)]
  exact ⟨rfl, rfl, rfl, rfl⟩

theorem KeyListT.read_count_zero_unforced_witness :
    (NIFStream.ofBytes "a.nif" [0, 0, 0, 0, 1, 0, 0, 0]).le32At 0 = 0 ∧
    (KeyListT.read floatType showBits trackWithKey
      (NIFStream.ofBytes "a.nif" [0, 0, 0, 0, 1, 0, 0, 0]) false).nif.inp.pos = 0 + 4 ∧
    (KeyListT.read floatType showBits trackWithKey
      (NIFStream.ofBytes "a.nif" [0, 0, 0, 0, 1, 0, 0, 0]) false).self = trackWithKey :=
  ⟨by decide,
    (KeyListT.read_count_zero_unforced floatType showBits trackWithKey
      (NIFStream.ofBytes "a.nif" [0, 0, 0, 0, 1, 0, 0, 0]) (by decide) (by decide)).2.1,
    (KeyListT.read_count_zero_unforced floatType showBits trackWithKey
      (NIFStream.ofBytes "a.nif" [0, 0, 0, 0, 1, 0, 0, 0]) (by decide) (by decide)).2.2.2⟩

/-- C6: on count = 0 followed by tag 0, `read` with `force = true` returns normally,
has consumed exactly 8 bytes, and leaves the track with no keys and tag 0. -/
theorem KeyListT.read_count_zero_tag_zero_forced {T : Type} (vt : ValueType T)
    (realToString : F32 → String) (self : KeyListT T) (nif : NIFStream)
    (h8 : nif.inp.pos + 8 ≤ nif.inp.data.length)
    (hcount : nif.le32At 0 = 0) (htag : nif.le32At 4 = 0) :
    (KeyListT.read vt realToString self nif true).thrown = none ∧
    (KeyListT.read vt realToString self nif true).nif.inp.pos = nif.inp.pos + 8 ∧
    (KeyListT.read vt realToString self nif true).nif = nif.advance 8 ∧
    (KeyListT.read vt realToString self nif true).self.mKeys = [] ∧
    (KeyListT.read vt realToString self nif true).self.mInterpolationType = 0 := by
  have hc : KeyListT.countOf nif = 0 := (KeyListT.countOf_eq_zero nif).2 hcount
  have hmax : KeyListT.countOf nif ≤ vt.maxSize := by rw [hc]; exact Nat.zero_le _
  have ht : KeyListT.tagOf nif = 0 := by
    unfold KeyListT.tagOf; rw [htag]; rfl
  rw [KeyListT.read_decoded vt realToString self nif true h8 (Or.inr rfl) hmax]
  simp [ht, hc, KeyListT.sLinearInterpolation, KeyListT.sQuadraticInterpolation,
    KeyListT.sTBCInterpolation, KeyListT.sXYZInterpolation, KeyListT.afterHeader, resize_zero]

theorem KeyListT.read_count_zero_tag_zero_forced_witness :
    (NIFStream.ofBytes "a.nif" [0, 0, 0, 0, 0, 0, 0, 0, 9]).le32At 0 = 0 ∧
    (NIFStream.ofBytes "a.nif" [0, 0, 0, 0, 0, 0, 0, 0, 9]).le32At 4 = 0 ∧
    (KeyListT.read floatType showBits trackWithKey
      (NIFStream.ofBytes "a.nif" [0, 0, 0, 0, 0, 0, 0, 0, 9]) true).thrown = none ∧
    (KeyListT.read floatType showBits trackWithKey
      (NIFStream.ofBytes "a.nif" [0, 0, 0, 0, 0, 0, 0, 0, 9]) true).self.mKeys = [] :=
  ⟨by decide, by decide,
    (KeyListT.read_count_zero_tag_zero_forced floatType showBits trackWithKey
      (NIFStream.ofBytes "a.nif" [0, 0, 0, 0, 0, 0, 0, 0, 9]) (by decide) (by decide) (by decide)).1,
    (KeyListT.read_count_zero_tag_zero_forced floatType showBits trackWithKey
      (NIFStream.ofBytes "a.nif" [0, 0, 0, 0, 0, 0, 0, 0, 9]) (by decide) (by decide)
      (by decide)).2.2.2.1⟩

/-- C7, as the code has it: with tag field 0 and a nonzero count field below `2 ^ 31`,
`read` throws the error of `NIFFile::fail` with the text "Interpolation type 0 doesn't
work with keys", whatever `force` is; whenever `read` returns normally on a stream whose
tag field is 0, the count field is 0. With a count field of `2 ^ 31` or more (a negative
`int`, above `max_size()` as a `size_t`) `mKeys.resize` throws `std::length_error`
before the tag is looked at. -/
theorem KeyListT.read_tag_zero {T : Type} (vt : ValueType T)
    (realToString : F32 → String) (self : KeyListT T) (nif : NIFStream)
    (h8 : nif.inp.pos + 8 ≤ nif.inp.data.length) (htag : nif.le32At 4 = 0) :
    (nif.le32At 0 ≠ 0 → nif.le32At 0 < 2 ^ 31 → ∀ force : Bool,
      (KeyListT.read vt realToString self nif force).thrown =
        some (Error.runtime_error
          ("NIFFile Error: Interpolation type 0 doesn't work with keys" ++
            ("\nFile: " ++ nif.file.filename)))) ∧
    (2 ^ 31 ≤ nif.le32At 0 → ∀ force : Bool,
      (KeyListT.read vt realToString self nif force).thrown = some Error.length_error) ∧
    (∀ force : Bool, (KeyListT.read vt realToString self nif force).thrown = none →
      nif.le32At 0 = 0) := by
  have ht : KeyListT.tagOf nif = 0 := by
    unfold KeyListT.tagOf; rw [htag]; rfl
  have key : nif.le32At 0 ≠ 0 → nif.le32At 0 < 2 ^ 31 → ∀ force : Bool,
      (KeyListT.read vt realToString self nif force).thrown =
        some (Error.runtime_error
          ("NIFFile Error: Interpolation type 0 doesn't work with keys" ++
            ("\nFile: " ++ nif.file.filename))) := by
    intro hcount hlt force
    have hc : KeyListT.countOf nif ≠ 0 := fun h => hcount ((KeyListT.countOf_eq_zero nif).1 h)
    have hmax := KeyListT.countOf_le_maxSize_of_lt vt nif hlt
    rw [KeyListT.read_decoded vt realToString self nif force h8 (Or.inl hc) hmax]
    simp [ht, hc, KeyListT.sLinearInterpolation, KeyListT.sQuadraticInterpolation,
      KeyListT.sTBCInterpolation, KeyListT.sXYZInterpolation, NIFFile.fail]
  have big : 2 ^ 31 ≤ nif.le32At 0 → ∀ force : Bool,
      (KeyListT.read vt realToString self nif force).thrown = some Error.length_error := by
    intro hge force
    have hmax := KeyListT.maxSize_lt_countOf_of_ge vt nif hge
    have hc : KeyListT.countOf nif ≠ 0 := by omega
    rw [KeyListT.read_length_error vt realToString self nif force h8 (Or.inl hc) hmax]
  refine ⟨key, big, ?_⟩
  intro force hnone
  by_contra hcount
  by_cases hlt : nif.le32At 0 < 2 ^ 31
  · rw [key hcount hlt force] at hnone
    exact Option.noConfusion hnone
  · rw [big (by omega) force] at hnone
    exact Option.noConfusion hnone

theorem KeyListT.read_tag_zero_witness :
    (NIFStream.ofBytes "a.nif" [3, 0, 0, 0, 0, 0, 0, 0]).le32At 4 = 0 ∧
    (NIFStream.ofBytes "a.nif" [3, 0, 0, 0, 0, 0, 0, 0]).le32At 0 ≠ 0 ∧
    (NIFStream.ofBytes "a.nif" [3, 0, 0, 0, 0, 0, 0, 0]).le32At 0 < 2 ^ 31 ∧
    (KeyListT.read floatType showBits trackWithKey
      (NIFStream.ofBytes "a.nif" [3, 0, 0, 0, 0, 0, 0, 0]) false).thrown =
        some (Error.runtime_error
          ("NIFFile Error: Interpolation type 0 doesn't work with keys" ++
            ("\nFile: " ++ "a.nif"))) :=
  ⟨by decide, by decide, by decide,
    (KeyListT.read_tag_zero floatType showBits trackWithKey
      (NIFStream.ofBytes "a.nif" [3, 0, 0, 0, 0, 0, 0, 0]) (by decide) (by decide)).1
      (by decide) (by decide) false⟩

/-- C7, as stated, fails: on the nonzero count field 0xFFFFFFFF with tag 0 what `read`
throws is the `std::length_error` of `resize`, not the error of `NIFFile::fail`; the
cursor is after the 8 header bytes and the keys are those before the call. -/
theorem KeyListT.read_tag_zero_huge_count :
    hugeCountTagZero.le32At 0 ≠ 0 ∧ hugeCountTagZero.le32At 4 = 0 ∧
    (KeyListT.read floatType showBits trackWithKey hugeCountTagZero false).thrown
      = some Error.length_error ∧
    (KeyListT.read floatType showBits trackWithKey hugeCountTagZero true).thrown
      = some Error.length_error ∧
    (KeyListT.read floatType showBits trackWithKey hugeCountTagZero false).nif.inp.pos = 8 ∧
    (KeyListT.read floatType showBits trackWithKey hugeCountTagZero false).self.mKeys
      = trackWithKey.mKeys := by
  decide

/-- C1, as the code has it: a track with tag 4 has its outer count checked before
anything else of the branch is read. For every outer count other than 1, the count
field being below `2 ^ 31` and the track not being skipped, `read` throws the error of
`NIFFile::fail` naming the count, with the cursor just after the 8 header bytes:
neither the padding float nor any per-axis sub-track is consumed. -/
theorem KeyListT.read_xyz_count_checked {T : Type} (vt : ValueType T)
    (realToString : F32 → String) (self : KeyListT T) (nif : NIFStream) (force : Bool)
    (h8 : nif.inp.pos + 8 ≤ nif.inp.data.length)
    (hdec : KeyListT.countOf nif ≠ 0 ∨ force = true)
    (htag : KeyListT.tagOf nif = 4) (hcount : KeyListT.countOf nif ≠ 1)
    (hlt : nif.le32At 0 < 2 ^ 31) :
    (KeyListT.read vt realToString self nif force).thrown =
      some (Error.runtime_error
        ("NIFFile Error: " ++
          ("count should always be '1' for XYZ_ROTATION_KEY.  Retrieved Value: " ++
            toString (KeyListT.countOf nif)) ++ ("\nFile: " ++ nif.file.filename))) ∧
    (KeyListT.read vt realToString self nif force).nif.inp.pos = nif.inp.pos + 8 ∧
    (KeyListT.read vt realToString self nif force).nif = nif.advance 8 := by
  have hmax := KeyListT.countOf_le_maxSize_of_lt vt nif hlt
  rw [KeyListT.read_decoded vt realToString self nif force h8 hdec hmax]
  simp [htag, hcount, KeyListT.sLinearInterpolation, KeyListT.sQuadraticInterpolation,
    KeyListT.sTBCInterpolation, KeyListT.sXYZInterpolation, KeyListT.readXYZ, NIFFile.fail]

theorem KeyListT.read_xyz_count_checked_witness :
    KeyListT.countOf xyzCountTwo ≠ 1 ∧ xyzCountTwo.le32At 0 < 2 ^ 31 ∧
    (KeyListT.read quaternionType showBits ⟨0, []⟩ xyzCountTwo false).nif.inp.pos = 0 + 8 :=
  ⟨by decide, by decide,
    (KeyListT.read_xyz_count_checked quaternionType showBits ⟨0, []⟩ xyzCountTwo false
      (by decide) (Or.inl (by decide)) (by decide) (by decide) (by decide)).2.1⟩

/-- C1, as stated, fails: on outer count 2 with tag 4 the decoder throws because of the
count ("Retrieved Value: 2") and stops at offset 8, although the 16 bytes of the padding
float and of the three axes are there to be read. -/
theorem KeyListT.read_xyz_count_two_throws :
    (KeyListT.read quaternionType showBits ⟨0, []⟩ xyzCountTwo false).thrown =
      some (Error.runtime_error
        "NIFFile Error: count should always be '1' for XYZ_ROTATION_KEY.  Retrieved Value: 2\nFile: a.nif") ∧
    (KeyListT.read quaternionType showBits ⟨0, []⟩ xyzCountTwo false).nif.inp.pos = 8 ∧
    xyzCountTwo.inp.data.length = 24 := by
  decide

/-- C5, as the code has it: after a count field of 0, `read` with `force = true`
returns normally exactly for the tags 0, 1, 2 and 3, leaving an empty track that
carries the tag read, with the 8 header bytes consumed; for tag 4 and for every tag
outside 0..4 it throws an error of `NIFFile::fail` (the track is then empty and
carries the tag as well). -/
theorem KeyListT.read_count_zero_forced {T : Type} (vt : ValueType T)
    (realToString : F32 → String) (self : KeyListT T) (nif : NIFStream)
    (h8 : nif.inp.pos + 8 ≤ nif.inp.data.length) (hcount : nif.le32At 0 = 0) :
    (KeyListT.read vt realToString self nif true).self.mKeys = [] ∧
    (KeyListT.read vt realToString self nif true).self.mInterpolationType = KeyListT.tagOf nif ∧
    (KeyListT.read vt realToString self nif true).nif.inp.pos = nif.inp.pos + 8 ∧
    ((KeyListT.tagOf nif = 0 ∨ KeyListT.tagOf nif = 1 ∨ KeyListT.tagOf nif = 2 ∨
        KeyListT.tagOf nif = 3) →
      (KeyListT.read vt realToString self nif true).thrown = none) ∧
    (¬ (KeyListT.tagOf nif = 0 ∨ KeyListT.tagOf nif = 1 ∨ KeyListT.tagOf nif = 2 ∨
        KeyListT.tagOf nif = 3) →
      ∃ msg : String,
        (KeyListT.read vt realToString self nif true).thrown = some (Error.runtime_error msg)) := by
  have hc : KeyListT.countOf nif = 0 := (KeyListT.countOf_eq_zero nif).2 hcount
  have hmax : KeyListT.countOf nif ≤ vt.maxSize := by rw [hc]; exact Nat.zero_le _
  rw [KeyListT.read_decoded vt realToString self nif true h8 (Or.inr rfl) hmax]
  simp only [hc, KeyListT.sLinearInterpolation, KeyListT.sQuadraticInterpolation,
    KeyListT.sTBCInterpolation, KeyListT.sXYZInterpolation, KeyListT.readLinear,
    KeyListT.readQuadratic, KeyListT.readTBC, KeyListT.forKeys, KeyListT.readXYZ,
    KeyListT.afterHeader, resize_zero, NIFFile.fail]
  by_cases h1 : KeyListT.tagOf nif = 1
  · simp [h1]
  · by_cases h2 : KeyListT.tagOf nif = 2
    · simp [h2]
    · by_cases h3 : KeyListT.tagOf nif = 3
      · simp [h3]
      · by_cases h4 : KeyListT.tagOf nif = 4
        · simp [h4]
        · by_cases h0 : KeyListT.tagOf nif = 0
          · simp [h0]
          · simp [h0, h1, h2, h3, h4]

theorem KeyListT.read_count_zero_forced_witness :
    (NIFStream.ofBytes "a.nif" [0, 0, 0, 0, 3, 0, 0, 0]).le32At 0 = 0 ∧
    KeyListT.tagOf (NIFStream.ofBytes "a.nif" [0, 0, 0, 0, 3, 0, 0, 0]) = 3 ∧
    (KeyListT.read floatType showBits trackWithKey
      (NIFStream.ofBytes "a.nif" [0, 0, 0, 0, 3, 0, 0, 0]) true).thrown = none :=
  ⟨by decide, by decide,
    (KeyListT.read_count_zero_forced floatType showBits trackWithKey
      (NIFStream.ofBytes "a.nif" [0, 0, 0, 0, 3, 0, 0, 0]) (by decide) (by decide)).2.2.2.1
      (Or.inr (Or.inr (Or.inr (by decide))))⟩

/-- C5, as stated, fails: after a count field of 0, `read` with `force = true` throws
when the tag that follows is 5 (unhandled tag) and when it is 4 (the count is not 1). -/
theorem KeyListT.read_count_zero_forced_throws :
    (KeyListT.read floatType showBits ⟨0, []⟩
      (NIFStream.ofBytes "a.nif" [0, 0, 0, 0, 5, 0, 0, 0]) true).thrown =
      some (Error.runtime_error "NIFFile Error: Unhandled interpolation type: 5\nFile: a.nif") ∧
    (KeyListT.read quaternionType showBits ⟨0, []⟩
      (NIFStream.ofBytes "a.nif" [0, 0, 0, 0, 4, 0, 0, 0]) true).thrown =
      some (Error.runtime_error
        "NIFFile Error: count should always be '1' for XYZ_ROTATION_KEY.  Retrieved Value: 0\nFile: a.nif") := by
  decide

/-- C8, as the code has it: when the track is not skipped, the count field is below
`2 ^ 31` and the tag is none of 0, 1, 2, 3, 4, `read` throws the error of
`NIFFile::fail` whose text is "Unhandled interpolation type: " followed by the tag in
decimal, and then the name of the file; on a tag in 1..3 `read` never throws an error
of `NIFFile::fail` at all. With a count field of `2 ^ 31` or more `mKeys.resize` throws
`std::length_error` before the tag is looked at, whatever the tag. -/
theorem KeyListT.read_unhandled_tag {T : Type} (vt : ValueType T) (w : Nat)
    (decode : List Byte → T) (hw : vt.FixedWidth w decode)
    (realToString : F32 → String) (self : KeyListT T) (nif : NIFStream) (force : Bool)
    (h8 : nif.inp.pos + 8 ≤ nif.inp.data.length) :
    ((nif.le32At 0 ≠ 0 ∨ force = true) → nif.le32At 0 < 2 ^ 31 →
      ¬ (KeyListT.tagOf nif = 0 ∨ KeyListT.tagOf nif = 1 ∨ KeyListT.tagOf nif = 2 ∨
          KeyListT.tagOf nif = 3 ∨ KeyListT.tagOf nif = 4) →
      (KeyListT.read vt realToString self nif force).thrown =
        some (Error.runtime_error
          ("NIFFile Error: " ++ ("Unhandled interpolation type: " ++ toString (KeyListT.tagOf nif))
            ++ ("\nFile: " ++ nif.file.filename)))) ∧
    (2 ^ 31 ≤ nif.le32At 0 →
      (KeyListT.read vt realToString self nif force).thrown = some Error.length_error) ∧
    ((KeyListT.tagOf nif = 1 ∨ KeyListT.tagOf nif = 2 ∨ KeyListT.tagOf nif = 3) →
      ∀ msg : String,
        (KeyListT.read vt realToString self nif force).thrown ≠ some (Error.runtime_error msg)) := by
  have big : 2 ^ 31 ≤ nif.le32At 0 →
      (KeyListT.read vt realToString self nif force).thrown = some Error.length_error := by
    intro hge
    have hmax := KeyListT.maxSize_lt_countOf_of_ge vt nif hge
    have hc : KeyListT.countOf nif ≠ 0 := by omega
    rw [KeyListT.read_length_error vt realToString self nif force h8 (Or.inl hc) hmax]
  refine ⟨?_, big, ?_⟩
  · intro hdec hlt htag
    have hdec1 : KeyListT.countOf nif ≠ 0 ∨ force = true := by
      rcases hdec with h | h
      · exact Or.inl (fun hc => h ((KeyListT.countOf_eq_zero nif).1 hc))
      · exact Or.inr h
    have hmax := KeyListT.countOf_le_maxSize_of_lt vt nif hlt
    rw [KeyListT.read_decoded vt realToString self nif force h8 hdec1 hmax]
    have h0 : ¬ KeyListT.tagOf nif = 0 := fun h => htag (Or.inl h)
    have h1 : ¬ KeyListT.tagOf nif = 1 := fun h => htag (Or.inr (Or.inl h))
    have h2 : ¬ KeyListT.tagOf nif = 2 := fun h => htag (Or.inr (Or.inr (Or.inl h)))
    have h3 : ¬ KeyListT.tagOf nif = 3 := fun h => htag (Or.inr (Or.inr (Or.inr (Or.inl h))))
    have h4 : ¬ KeyListT.tagOf nif = 4 := fun h => htag (Or.inr (Or.inr (Or.inr (Or.inr h))))
    simp [h0, h1, h2, h3, h4, KeyListT.sLinearInterpolation, KeyListT.sQuadraticInterpolation,
      KeyListT.sTBCInterpolation, KeyListT.sXYZInterpolation, NIFFile.fail]
  · intro htag msg hthrown
    by_cases hlt : nif.le32At 0 < 2 ^ 31
    · have hmax := KeyListT.countOf_le_maxSize_of_lt vt nif hlt
      have hben : (KeyListT.read vt realToString self nif force).Benign := by
        by_cases hdec : KeyListT.countOf nif ≠ 0 ∨ force = true
        · rcases htag with h | h | h
          · rw [KeyListT.read_tag_linear vt realToString self nif force h8 hdec hmax h]
            exact KeyListT.forKeys_benign _ (KeyListT.linearBody_benign hw) _ _ _ _
          · rw [KeyListT.read_tag_quadratic vt realToString self nif force h8 hdec hmax h]
            exact KeyListT.forKeys_benign _ (KeyListT.quadraticBody_benign hw) _ _ _ _
          · rw [KeyListT.read_tag_tbc vt realToString self nif force h8 hdec hmax h]
            exact KeyListT.forKeys_benign _ (KeyListT.tbcBody_benign hw) _ _ _ _
        · have hc : KeyListT.countOf nif = 0 := by
            by_contra hne; exact hdec (Or.inl hne)
          have hf : force = false := by
            cases force
            · rfl
            · exact absurd (Or.inr rfl) hdec
          subst hf
          rw [KeyListT.read_skipped vt realToString self nif (by omega) hc]
          exact Or.inl rfl
      rcases hben with h | h
      · rw [h] at hthrown; exact Option.noConfusion hthrown
      · rw [h] at hthrown
        exact Error.noConfusion (Option.some.inj hthrown)
    · rw [big (by omega)] at hthrown
      exact Error.noConfusion (Option.some.inj hthrown)

theorem KeyListT.read_unhandled_tag_witness :
    (NIFStream.ofBytes "a.nif" [1, 0, 0, 0, 7, 0, 0, 0]).le32At 0 ≠ 0 ∧
    (NIFStream.ofBytes "a.nif" [1, 0, 0, 0, 7, 0, 0, 0]).le32At 0 < 2 ^ 31 ∧
    KeyListT.tagOf (NIFStream.ofBytes "a.nif" [1, 0, 0, 0, 7, 0, 0, 0]) = 7 ∧
    (KeyListT.read floatType showBits trackWithKey
      (NIFStream.ofBytes "a.nif" [1, 0, 0, 0, 7, 0, 0, 0]) false).thrown =
      some (Error.runtime_error
        ("NIFFile Error: " ++ ("Unhandled interpolation type: " ++
          toString (KeyListT.tagOf (NIFStream.ofBytes "a.nif" [1, 0, 0, 0, 7, 0, 0, 0])))
          ++ ("\nFile: " ++ "a.nif"))) :=
  ⟨by decide, by decide, by decide,
    (KeyListT.read_unhandled_tag floatType 4 decodeFloat floatType_fixedWidth showBits trackWithKey
      (NIFStream.ofBytes "a.nif" [1, 0, 0, 0, 7, 0, 0, 0]) false (by decide)).1
      (Or.inl (by decide)) (by decide) (by decide)⟩

/-- C8, as stated, fails: on the count field 0xFFFFFFFF (a track that is not skipped)
with the tag 7 what `read` throws is the `std::length_error` of `resize`, which names
neither the tag nor the file. -/
theorem KeyListT.read_unhandled_tag_huge_count :
    hugeCountTagSeven.le32At 0 ≠ 0 ∧ KeyListT.tagOf hugeCountTagSeven = 7 ∧
    (KeyListT.read floatType showBits trackWithKey hugeCountTagSeven false).thrown
      = some Error.length_error ∧
    (KeyListT.read floatType showBits trackWithKey hugeCountTagSeven false).nif.inp.pos = 8 := by
  decide

/-! ## Claims about the linear and the quadratic branch -/

/-- C9: a track that is decoded (count nonzero or `force`) with tag 1, count `n` (the
count as `read` holds it) and at least `8 + n * (4 + w)` bytes, `w` being the width of
a value: `read` returns normally with exactly `n` keys; key `i` has the time read at
offset `8 + i * (4 + w)` and the value decoded from the `w` bytes that follow it,
whatever the times are (file order, no sorting); exactly `8 + n * (4 + w)` bytes are
consumed. -/
theorem KeyListT.read_linear {T : Type} (vt : ValueType T) (w : Nat) (decode : List Byte → T)
    (hw : vt.FixedWidth w decode) (realToString : F32 → String) (self : KeyListT T)
    (nif : NIFStream) (force : Bool) (n : Nat) (hn : KeyListT.countOf nif = n)
    (hdec : n ≠ 0 ∨ force = true) (htag : KeyListT.tagOf nif = 1)
    (hbytes : nif.inp.pos + (8 + n * (4 + w)) ≤ nif.inp.data.length) :
    (KeyListT.read vt realToString self nif force).thrown = none ∧
    (KeyListT.read vt realToString self nif force).self.mInterpolationType = 1 ∧
    (KeyListT.read vt realToString self nif force).self.mKeys.length = n ∧
    (∀ i : Nat, i < n → ∃ key : KeyT T,
      (KeyListT.read vt realToString self nif force).self.mKeys[i]? = some key ∧
      key.mTime = F32.mk (nif.le32At (8 + i * (4 + w))) ∧
      key.mValue = decode ((nif.advance (8 + i * (4 + w) + 4)).window w)) ∧
    (KeyListT.read vt realToString self nif force).nif.inp.pos = nif.inp.pos + (8 + n * (4 + w)) ∧
    (KeyListT.read vt realToString self nif force).nif = nif.advance (8 + n * (4 + w)) := by
  subst hn
  have h8 : nif.inp.pos + 8 ≤ nif.inp.data.length := by omega
  have hmax : KeyListT.countOf nif ≤ vt.maxSize :=
    KeyListT.countOf_le_maxSize_of_bytes vt nif (4 + w) (by omega) hbytes
  rw [KeyListT.read_tag_linear vt realToString self nif force h8 hdec hmax htag]
  obtain ⟨h1, h2, h3, h4, h5⟩ := KeyListT.forKeys_afterHeader vt self nif (KeyListT.linearBody vt)
    (4 + w) (KeyListT.linearKey w decode) (KeyListT.linearBody_ok hw) hbytes
  refine ⟨h1, by rw [h3, htag], h4, ?_, by rw [h2]; rfl, h2⟩
  intro i hi
  obtain ⟨key0, _, hk⟩ := h5 i hi
  refine ⟨_, hk, ?_, ?_⟩
  · simp [KeyListT.linearKey]
  · simp [KeyListT.linearKey]

theorem KeyListT.read_linear_witness :
    KeyListT.countOf linearTwoKeys = 2 ∧ KeyListT.tagOf linearTwoKeys = 1 ∧
    (KeyListT.read floatType showBits ⟨0, []⟩ linearTwoKeys false).thrown = none ∧
    (KeyListT.read floatType showBits ⟨0, []⟩ linearTwoKeys false).self.mKeys.length = 2 ∧
    (KeyListT.read floatType showBits ⟨0, []⟩ linearTwoKeys false).nif.inp.pos
      = 0 + (8 + 2 * (4 + 4)) :=
  ⟨by decide, by decide,
    (KeyListT.read_linear floatType 4 decodeFloat floatType_fixedWidth showBits ⟨0, []⟩
      linearTwoKeys false 2 (by decide) (Or.inl (by decide)) (by decide) (by decide)).1,
    (KeyListT.read_linear floatType 4 decodeFloat floatType_fixedWidth showBits ⟨0, []⟩
      linearTwoKeys false 2 (by decide) (Or.inl (by decide)) (by decide) (by decide)).2.2.1,
    (KeyListT.read_linear floatType 4 decodeFloat floatType_fixedWidth showBits ⟨0, []⟩
      linearTwoKeys false 2 (by decide) (Or.inl (by decide)) (by decide) (by decide)).2.2.2.2.1⟩

/-- C10: a track that is decoded with tag 2 over a value type other than a quaternion,
count `n` and at least `8 + n * (4 + 3 * w)` bytes: `read` returns normally with `n`
keys; key `i` holds, from block `i` and in this order, the time, the value, the forward
tangent and the backward tangent; exactly `8 + n * (4 + 3 * w)` bytes are consumed. -/
theorem KeyListT.read_quadratic {T : Type} (vt : ValueType T) (w : Nat) (decode : List Byte → T)
    (hw : vt.FixedWidth w decode) (hq : vt.isQuaternion = false)
    (realToString : F32 → String) (self : KeyListT T)
    (nif : NIFStream) (force : Bool) (n : Nat) (hn : KeyListT.countOf nif = n)
    (hdec : n ≠ 0 ∨ force = true) (htag : KeyListT.tagOf nif = 2)
    (hbytes : nif.inp.pos + (8 + n * (4 + 3 * w)) ≤ nif.inp.data.length) :
    (KeyListT.read vt realToString self nif force).thrown = none ∧
    (KeyListT.read vt realToString self nif force).self.mInterpolationType = 2 ∧
    (KeyListT.read vt realToString self nif force).self.mKeys.length = n ∧
    (∀ i : Nat, i < n → ∃ key : KeyT T,
      (KeyListT.read vt realToString self nif force).self.mKeys[i]? = some key ∧
      key.mTime = F32.mk (nif.le32At (8 + i * (4 + 3 * w))) ∧
      key.mValue = decode ((nif.advance (8 + i * (4 + 3 * w) + 4)).window w) ∧
      key.mForwardValue = decode ((nif.advance (8 + i * (4 + 3 * w) + (4 + w))).window w) ∧
      key.mBackwardValue = decode ((nif.advance (8 + i * (4 + 3 * w) + (4 + 2 * w))).window w)) ∧
    (KeyListT.read vt realToString self nif force).nif.inp.pos
      = nif.inp.pos + (8 + n * (4 + 3 * w)) ∧
    (KeyListT.read vt realToString self nif force).nif = nif.advance (8 + n * (4 + 3 * w)) := by
  subst hn
  have h8 : nif.inp.pos + 8 ≤ nif.inp.data.length := by omega
  have hmax : KeyListT.countOf nif ≤ vt.maxSize :=
    KeyListT.countOf_le_maxSize_of_bytes vt nif (4 + 3 * w) (by omega) hbytes
  rw [KeyListT.read_tag_quadratic vt realToString self nif force h8 hdec hmax htag]
  obtain ⟨h1, h2, h3, h4, h5⟩ := KeyListT.forKeys_afterHeader vt self nif
    (KeyListT.quadraticBody vt) (4 + 3 * w) (KeyListT.quadraticKey w decode)
    (KeyListT.quadraticBody_ok hw hq) hbytes
  refine ⟨h1, by rw [h3, htag], h4, ?_, by rw [h2]; rfl, h2⟩
  intro i hi
  obtain ⟨key0, _, hk⟩ := h5 i hi
  refine ⟨_, hk, ?_, ?_, ?_, ?_⟩ <;> simp [KeyListT.quadraticKey]

theorem KeyListT.read_quadratic_witness :
    KeyListT.countOf quadraticOneKey = 1 ∧ KeyListT.tagOf quadraticOneKey = 2 ∧
    (KeyListT.read floatType showBits ⟨0, []⟩ quadraticOneKey false).thrown = none ∧
    (KeyListT.read floatType showBits ⟨0, []⟩ quadraticOneKey false).self.mKeys.length = 1 ∧
    (KeyListT.read floatType showBits ⟨0, []⟩ quadraticOneKey false).nif.inp.pos
      = 0 + (8 + 1 * (4 + 3 * 4)) :=
  ⟨by decide, by decide,
    (KeyListT.read_quadratic floatType 4 decodeFloat floatType_fixedWidth rfl showBits ⟨0, []⟩
      quadraticOneKey false 1 (by decide) (Or.inl (by decide)) (by decide) (by decide)).1,
    (KeyListT.read_quadratic floatType 4 decodeFloat floatType_fixedWidth rfl showBits ⟨0, []⟩
      quadraticOneKey false 1 (by decide) (Or.inl (by decide)) (by decide) (by decide)).2.2.1,
    (KeyListT.read_quadratic floatType 4 decodeFloat floatType_fixedWidth rfl showBits ⟨0, []⟩
      quadraticOneKey false 1 (by decide) (Or.inl (by decide)) (by decide) (by decide)).2.2.2.2.1⟩

/-- C3: a track that is decoded with tag 2 over quaternions, with count `n` and at least
`8 + n * (4 + w)` bytes, `w` being the width of a quaternion: `read` returns normally
having consumed the 8 header bytes and exactly `n * (4 + w)` more; the forward and the
backward tangent of every key are not read from the input: they are those of the key
that `resize` left at this index (the old key, or the initial one). -/
theorem KeyListT.read_rotation_quadratic {T : Type} (vt : ValueType T) (w : Nat)
    (decode : List Byte → T) (hw : vt.FixedWidth w decode) (hq : vt.isQuaternion = true)
    (realToString : F32 → String) (self : KeyListT T)
    (nif : NIFStream) (force : Bool) (n : Nat) (hn : KeyListT.countOf nif = n)
    (hdec : n ≠ 0 ∨ force = true) (htag : KeyListT.tagOf nif = 2)
    (hbytes : nif.inp.pos + (8 + n * (4 + w)) ≤ nif.inp.data.length) :
    (KeyListT.read vt realToString self nif force).thrown = none ∧
    (KeyListT.read vt realToString self nif force).nif.inp.pos = nif.inp.pos + 8 + n * (4 + w) ∧
    (KeyListT.read vt realToString self nif force).nif = nif.advance (8 + n * (4 + w)) ∧
    (KeyListT.read vt realToString self nif force).self.mKeys.length = n ∧
    (∀ i : Nat, i < n → ∃ key key0 : KeyT T,
      (KeyListT.read vt realToString self nif force).self.mKeys[i]? = some key ∧
      (resize self.mKeys n vt.initKey)[i]? = some key0 ∧
      key.mTime = F32.mk (nif.le32At (8 + i * (4 + w))) ∧
      key.mValue = decode ((nif.advance (8 + i * (4 + w) + 4)).window w) ∧
      key.mForwardValue = key0.mForwardValue ∧
      key.mBackwardValue = key0.mBackwardValue) := by
  subst hn
  have h8 : nif.inp.pos + 8 ≤ nif.inp.data.length := by omega
  have hmax : KeyListT.countOf nif ≤ vt.maxSize :=
    KeyListT.countOf_le_maxSize_of_bytes vt nif (4 + w) (by omega) hbytes
  rw [KeyListT.read_tag_quadratic vt realToString self nif force h8 hdec hmax htag]
  obtain ⟨h1, h2, _, h4, h5⟩ := KeyListT.forKeys_afterHeader vt self nif
    (KeyListT.quadraticBody vt) (4 + w) (KeyListT.linearKey w decode)
    (KeyListT.quadraticBody_quaternion_ok hw hq) hbytes
  refine ⟨h1, by rw [h2]; simp [Nat.add_assoc], h2, h4, ?_⟩
  intro i hi
  obtain ⟨key0, hk0, hk⟩ := h5 i hi
  refine ⟨_, key0, hk, hk0, ?_, ?_, rfl, rfl⟩
  · simp [KeyListT.linearKey]
  · simp [KeyListT.linearKey]

theorem KeyListT.read_rotation_quadratic_witness :
    KeyListT.countOf quadraticQuaternionKey = 1 ∧ KeyListT.tagOf quadraticQuaternionKey = 2 ∧
    (KeyListT.read quaternionType showBits ⟨0, []⟩ quadraticQuaternionKey false).thrown = none ∧
    (KeyListT.read quaternionType showBits ⟨0, []⟩ quadraticQuaternionKey false).nif.inp.pos
      = 0 + 8 + 1 * (4 + 16) :=
  ⟨by decide, by decide,
    (KeyListT.read_rotation_quadratic quaternionType 16 decodeQuaternion
      quaternionType_fixedWidth rfl showBits ⟨0, []⟩ quadraticQuaternionKey false 1
      (by decide) (Or.inl (by decide)) (by decide) (by decide)).1,
    (KeyListT.read_rotation_quadratic quaternionType 16 decodeQuaternion
      quaternionType_fixedWidth rfl showBits ⟨0, []⟩ quadraticQuaternionKey false 1
      (by decide) (Or.inl (by decide)) (by decide) (by decide)).2.1⟩

/-! ## The fixed-axis branch -/

theorem toUInt32_toInt32 {u : Nat} (h : u < 2 ^ 32) : toUInt32 (toInt32 u) = u := by
  unfold toUInt32 toInt32
  have h1 : u % 2 ^ 32 = u := Nat.mod_eq_of_lt h
  rw [h1]
  split <;> omega

theorem KeyListT.readXYZKeys_ok : ∀ (n j : Nat) (keys : List (KeyT F32)) (nif : NIFStream),
    nif.inp.pos + 8 * n ≤ nif.inp.data.length →
    ∃ keys1 : List (KeyT F32),
      KeyListT.readXYZKeys n j keys nif = Result.ok keys1 (nif.advance (8 * n)) := by
  intro n
  induction n with
  | zero => intro j keys nif _; exact ⟨keys, rfl⟩
  | succ n ih =>
    intro j keys nif h
    have h1 : nif.inp.pos + 4 ≤ nif.inp.data.length := by omega
    have h2 : (nif.advance 4).inp.pos + 4 ≤ (nif.advance 4).inp.data.length := by
      simp only [NIFStream.advance_pos, NIFStream.advance_data]; omega
    have h3 : (nif.advance 8).inp.pos + 8 * n ≤ (nif.advance 8).inp.data.length := by
      simp only [NIFStream.advance_pos, NIFStream.advance_data]; omega
    obtain ⟨keys1, hk⟩ := ih (j + 1)
      (updateKey (updateKey keys j (fun key => { key with mTime := F32.mk (nif.le32At 0) })) j
        (fun key => { key with mValue := F32.mk (nif.le32At 4) })) (nif.advance 8) h3
    refine ⟨keys1, ?_⟩
    have e : 8 + 8 * n = 8 * (n + 1) := by ring
    simp only [KeyListT.readXYZKeys, nif.getFloat_ok h1, NIFStream.getFloat_ok _ h2,
      NIFStream.advance_advance, NIFStream.le32At_advance, Nat.add_zero]
    rw [hk, NIFStream.advance_advance, e]

theorem KeyListT.badAxisAfter_bytes : ∀ (pre : List Nat) (nif : NIFStream),
    KeyListT.badAxisAfter pre nif = true →
    nif.inp.pos + (KeyListT.axesSize pre + 8) ≤ nif.inp.data.length := by
  intro pre
  induction pre with
  | nil =>
    intro nif h
    simp only [KeyListT.badAxisAfter, Bool.and_eq_true, decide_eq_true_eq] at h
    simpa [KeyListT.axesSize] using h.1.1
  | cons a pre ih =>
    intro nif h
    simp only [KeyListT.badAxisAfter, Bool.and_eq_true] at h
    have h1 := ih _ h.2
    simp only [NIFStream.advance_pos, NIFStream.advance_data] at h1
    simp only [KeyListT.axesSize, List.map_cons, List.sum_cons] at h1 ⊢
    omega

theorem KeyListT.readXYZAxes_bad : ∀ (pre : List Nat) (n i : Nat)
    (keysXYZ : List (List (KeyT F32))) (nif : NIFStream),
    pre.length < n → KeyListT.badAxisAfter pre nif = true →
    KeyListT.readXYZAxes n i keysXYZ nif =
      Result.exc (nif.file.fail
        ("XYZ_ROTATION_KEY's KeyGroup keyType must be '1' (Linear Interpolation).  Retrieved Value: "
          ++ toString (toInt32 (nif.le32At (KeyListT.axesSize pre + 4)))))
        (nif.advance (KeyListT.axesSize pre + 8)) := by
  intro pre
  induction pre with
  | nil =>
    intro n i keysXYZ nif hn h
    obtain ⟨m, rfl⟩ : ∃ m, n = m + 1 := ⟨n - 1, by simp at hn; omega⟩
    simp only [KeyListT.badAxisAfter, Bool.and_eq_true, decide_eq_true_eq, bne_iff_ne, ne_eq] at h
    obtain ⟨⟨h8, hc⟩, ht⟩ := h
    have h1 : nif.inp.pos + 4 ≤ nif.inp.data.length := by omega
    have h2 : (nif.advance 4).inp.pos + 4 ≤ (nif.advance 4).inp.data.length := by
      simp only [NIFStream.advance_pos, NIFStream.advance_data]; omega
    have hnum : toUInt32 (toInt32 (nif.le32At 0)) ≠ 0 := by
      rw [toUInt32_toInt32 (nif.le32At_lt 0)]; exact hc
    have ht1 : ¬ toInt32 (nif.le32At 4) = KeyListT.sLinearInterpolation := ht
    simp [KeyListT.readXYZAxes, nif.getInt_ok h1, NIFStream.getInt_ok _ h2, hnum, ht1,
      KeyListT.axesSize]
  | cons a pre ih =>
    intro n i keysXYZ nif hn h
    obtain ⟨m, rfl⟩ : ∃ m, n = m + 1 := ⟨n - 1, by simp at hn; omega⟩
    have hm : pre.length < m := by simp at hn; omega
    simp only [KeyListT.badAxisAfter, Bool.and_eq_true, beq_iff_eq, Bool.or_eq_true] at h
    obtain ⟨⟨ha, htag⟩, hrest⟩ := h
    have hbytes := KeyListT.badAxisAfter_bytes pre _ hrest
    simp only [NIFStream.advance_pos, NIFStream.advance_data] at hbytes
    have h1 : nif.inp.pos + 4 ≤ nif.inp.data.length := by
      unfold KeyListT.axisSize at hbytes; omega
    have hsize : KeyListT.axesSize (a :: pre) = KeyListT.axisSize a + KeyListT.axesSize pre := by
      simp [KeyListT.axesSize]
    have hnum : toUInt32 (toInt32 (nif.le32At 0)) = a := by
      rw [toUInt32_toInt32 (nif.le32At_lt 0)]; exact ha
    by_cases ha0 : a = 0
    · have hs : KeyListT.axisSize a = 4 := by simp [KeyListT.axisSize, ha0]
      rw [hs] at hrest
      have hih := ih m (i + 1) keysXYZ (nif.advance 4) hm hrest
      rw [hsize, hs]
      simp only [KeyListT.readXYZAxes, nif.getInt_ok h1, hnum, ha0, ne_eq, not_true_eq_false,
        if_false]
      rw [hih]
      simp [Nat.add_assoc]
    · have hs : KeyListT.axisSize a = 8 + 8 * a := by
        simp only [KeyListT.axisSize, ne_eq, ha0, not_false_eq_true, if_true]; omega
      rw [hs] at hrest hbytes
      have h2 : (nif.advance 4).inp.pos + 4 ≤ (nif.advance 4).inp.data.length := by
        simp only [NIFStream.advance_pos, NIFStream.advance_data]; omega
      have h3 : (nif.advance 8).inp.pos + 8 * a ≤ (nif.advance 8).inp.data.length := by
        simp only [NIFStream.advance_pos, NIFStream.advance_data]; omega
      have ht : toInt32 (nif.le32At 4) = 1 := by
        rcases htag with h | h
        · exact absurd h ha0
        · exact h
      obtain ⟨keys1, hk⟩ := KeyListT.readXYZKeys_ok a 0
        (resize (keysXYZ.getD i []) a KeyListT.floatInitKey) (nif.advance 8) h3
      rw [NIFStream.advance_advance] at hk
      have hih := ih m (i + 1) (keysXYZ.set i keys1) (nif.advance (8 + 8 * a)) hm hrest
      rw [hsize, hs]
      simp only [KeyListT.readXYZAxes, nif.getInt_ok h1, NIFStream.getInt_ok _ h2, hnum, ne_eq,
        ha0, not_false_eq_true, if_true, NIFStream.le32At_advance, ht,
        KeyListT.sLinearInterpolation, NIFStream.advance_advance, not_true_eq_false, if_false]
      rw [hk]
      simp only []
      rw [hih]
      simp [Nat.add_assoc]

/-- C4, as the code has it: a track that is decoded with tag 4 and an outer count field
below `2 ^ 31` in which, after the padding float, the axes with sub-counts `pre` (fewer
than 3, each well formed) are followed by an axis with a nonzero sub-count and a nested
tag other than 1. `read` throws an error of `NIFFile::fail`, with the cursor no further
than the end of the offending nested tag.
When the outer count is 1 the error is the one that names the nested tag, and the cursor
is exactly at the end of that tag: no pair of this axis and nothing of the later axes is
consumed. (When the outer count is not 1 the error is the one of the count check, at
offset 8.) -/
theorem KeyListT.read_xyz_bad_nested_tag {T : Type} (vt : ValueType T)
    (realToString : F32 → String) (self : KeyListT T) (nif : NIFStream) (force : Bool)
    (pre : List Nat) (hpre : pre.length < 3)
    (hdec : KeyListT.countOf nif ≠ 0 ∨ force = true) (htag : KeyListT.tagOf nif = 4)
    (hbad : KeyListT.badAxisAfter pre (nif.advance 12) = true)
    (hlt : nif.le32At 0 < 2 ^ 31) :
    (∃ msg : String,
      (KeyListT.read vt realToString self nif force).thrown = some (Error.runtime_error msg)) ∧
    (KeyListT.read vt realToString self nif force).nif.inp.pos
      ≤ nif.inp.pos + (12 + KeyListT.axesSize pre + 8) ∧
    (KeyListT.countOf nif = 1 →
      (KeyListT.read vt realToString self nif force).thrown =
        some (Error.runtime_error
          ("NIFFile Error: " ++
            ("XYZ_ROTATION_KEY's KeyGroup keyType must be '1' (Linear Interpolation).  Retrieved Value: "
              ++ toString (toInt32 (nif.le32At (12 + KeyListT.axesSize pre + 4))))
            ++ ("\nFile: " ++ nif.file.filename))) ∧
      (KeyListT.read vt realToString self nif force).nif.inp.pos
        = nif.inp.pos + (12 + KeyListT.axesSize pre + 8)) := by
  have hbytes := KeyListT.badAxisAfter_bytes pre _ hbad
  simp only [NIFStream.advance_pos, NIFStream.advance_data] at hbytes
  have h8 : nif.inp.pos + 8 ≤ nif.inp.data.length := by omega
  have h12 : (nif.advance 8).inp.pos + 4 ≤ (nif.advance 8).inp.data.length := by
    simp only [NIFStream.advance_pos, NIFStream.advance_data]; omega
  have haxes := KeyListT.readXYZAxes_bad pre 3 0 [[], [], []] (nif.advance 12) hpre hbad
  have hmax := KeyListT.countOf_le_maxSize_of_lt vt nif hlt
  rw [KeyListT.read_tag_xyz vt realToString self nif force h8 hdec hmax htag]
  unfold KeyListT.readXYZ
  by_cases hc : KeyListT.countOf nif = 1
  · simp only [hc, ne_eq, not_true_eq_false, if_false, NIFStream.getFloat_ok _ h12,
      NIFStream.advance_advance]
    rw [haxes]
    simp [NIFFile.fail, Nat.add_assoc]
  · simp only [ne_eq, hc, not_false_eq_true, if_true, NIFFile.fail]
    refine ⟨⟨_, rfl⟩, ?_, fun h => False.elim h⟩
    simp only [NIFStream.advance_pos]
    omega

theorem KeyListT.read_xyz_bad_nested_tag_witness :
    KeyListT.countOf xyzBadSecondAxis = 1 ∧ KeyListT.tagOf xyzBadSecondAxis = 4 ∧
    xyzBadSecondAxis.le32At 0 < 2 ^ 31 ∧
    KeyListT.badAxisAfter [1] (xyzBadSecondAxis.advance 12) = true ∧
    (KeyListT.read quaternionType showBits ⟨0, []⟩ xyzBadSecondAxis false).nif.inp.pos
      = 0 + (12 + KeyListT.axesSize [1] + 8) ∧
    xyzBadSecondAxis.inp.data.length = 52 :=
  ⟨by decide, by decide, by decide, by decide,
    ((KeyListT.read_xyz_bad_nested_tag quaternionType showBits ⟨0, []⟩ xyzBadSecondAxis false [1]
      (by decide) (Or.inl (by decide)) (by decide) (by decide) (by decide)).2.2 (by decide)).2,
    by decide⟩

/-- C4, as stated, fails: on a fixed-axis track whose outer count field is 0xFFFFFFFF
and whose first axis has sub-count 2 and nested tag 3, what `read` throws is the
`std::length_error` of `resize`, not an error of `NIFFile::fail`. -/
theorem KeyListT.read_xyz_bad_nested_tag_huge_count :
    KeyListT.tagOf hugeCountXyzBad = 4 ∧
    KeyListT.badAxisAfter [] (hugeCountXyzBad.advance 12) = true ∧
    (KeyListT.read quaternionType showBits ⟨0, []⟩ hugeCountXyzBad false).thrown
      = some Error.length_error ∧
    (KeyListT.read quaternionType showBits ⟨0, []⟩ hugeCountXyzBad false).nif.inp.pos = 8 := by
  decide

/-! ## Claims about the TBC branch -/

theorem KeyListT.tbcBody_ok {T : Type} {vt : ValueType T} {w : Nat} {decode : List Byte → T}
    (hw : vt.FixedWidth w decode) (i : Nat) (self : KeyListT T) (nif : NIFStream) (key : KeyT T)
    (hb : nif.inp.pos + (4 + w + 12) ≤ nif.inp.data.length) (hkey : self.mKeys[i]? = some key) :
    KeyListT.tbcBody vt i self nif =
      ⟨none, { self with mKeys := self.mKeys.set i (KeyListT.tbcKey w decode nif key) },
        nif.advance (4 + w + 12)⟩ := by
  have h1 : nif.inp.pos + 4 ≤ nif.inp.data.length := by omega
  have h2 : (nif.advance 4).inp.pos + w ≤ (nif.advance 4).inp.data.length := by
    simp only [NIFStream.advance_pos, NIFStream.advance_data]; omega
  have h3 : (nif.advance (4 + w)).inp.pos + 4 ≤ (nif.advance (4 + w)).inp.data.length := by
    simp only [NIFStream.advance_pos, NIFStream.advance_data]; omega
  have h4 : (nif.advance (4 + w + 4)).inp.pos + 4 ≤ (nif.advance (4 + w + 4)).inp.data.length := by
    simp only [NIFStream.advance_pos, NIFStream.advance_data]; omega
  have h5 : (nif.advance (4 + w + 4 + 4)).inp.pos + 4
      ≤ (nif.advance (4 + w + 4 + 4)).inp.data.length := by
    simp only [NIFStream.advance_pos, NIFStream.advance_data]; omega
  have e4 : 4 + w + 4 + 4 + 4 = 4 + w + 12 := by omega
  unfold KeyListT.tbcBody
  simp only [nif.getFloat_ok h1, hw.getValue_ok _ h2, NIFStream.getFloat_ok _ h3,
    NIFStream.getFloat_ok _ h4, NIFStream.getFloat_ok _ h5,
    updateKey_of_some _ hkey, updateKey_set _ _ hkey, NIFStream.advance_advance,
    NIFStream.le32At_advance, Nat.add_zero, e4, KeyListT.tbcKey]

/-- C11: a track that is decoded (count nonzero or `force`) with tag 3, count `n` (the
count as `read` holds it) and at least `8 + n * (4 + w + 12)` bytes, `w` being the width
of a value: `read` returns normally with `n` keys; key `i` holds, from block `i` and in
this order, the time, the value, and tension, bias and continuity as single floats;
exactly `8 + n * (4 + w + 12)` bytes are consumed. -/
theorem KeyListT.read_tbc {T : Type} (vt : ValueType T) (w : Nat) (decode : List Byte → T)
    (hw : vt.FixedWidth w decode) (realToString : F32 → String) (self : KeyListT T)
    (nif : NIFStream) (force : Bool) (n : Nat) (hn : KeyListT.countOf nif = n)
    (hdec : n ≠ 0 ∨ force = true) (htag : KeyListT.tagOf nif = 3)
    (hbytes : nif.inp.pos + (8 + n * (4 + w + 12)) ≤ nif.inp.data.length) :
    (KeyListT.read vt realToString self nif force).thrown = none ∧
    (KeyListT.read vt realToString self nif force).self.mInterpolationType = 3 ∧
    (KeyListT.read vt realToString self nif force).self.mKeys.length = n ∧
    (∀ i : Nat, i < n → ∃ key : KeyT T,
      (KeyListT.read vt realToString self nif force).self.mKeys[i]? = some key ∧
      key.mTime = F32.mk (nif.le32At (8 + i * (4 + w + 12))) ∧
      key.mValue = decode ((nif.advance (8 + i * (4 + w + 12) + 4)).window w) ∧
      key.mTension = F32.mk (nif.le32At (8 + i * (4 + w + 12) + (4 + w))) ∧
      key.mBias = F32.mk (nif.le32At (8 + i * (4 + w + 12) + (4 + w + 4))) ∧
      key.mContinuity = F32.mk (nif.le32At (8 + i * (4 + w + 12) + (4 + w + 8)))) ∧
    (KeyListT.read vt realToString self nif force).nif.inp.pos
      = nif.inp.pos + (8 + n * (4 + w + 12)) ∧
    (KeyListT.read vt realToString self nif force).nif = nif.advance (8 + n * (4 + w + 12)) := by
  subst hn
  have h8 : nif.inp.pos + 8 ≤ nif.inp.data.length := by omega
  have hmax : KeyListT.countOf nif ≤ vt.maxSize :=
    KeyListT.countOf_le_maxSize_of_bytes vt nif (4 + w + 12) (by omega) hbytes
  rw [KeyListT.read_tag_tbc vt realToString self nif force h8 hdec hmax htag]
  obtain ⟨h1, h2, h3, h4, h5⟩ := KeyListT.forKeys_afterHeader vt self nif
    (KeyListT.tbcBody vt) (4 + w + 12) (KeyListT.tbcKey w decode)
    (KeyListT.tbcBody_ok hw) hbytes
  refine ⟨h1, by rw [h3, htag], h4, ?_, by rw [h2]; rfl, h2⟩
  intro i hi
  obtain ⟨key0, _, hk⟩ := h5 i hi
  refine ⟨_, hk, ?_, ?_, ?_, ?_, ?_⟩ <;> simp [KeyListT.tbcKey]

theorem KeyListT.read_tbc_witness :
    KeyListT.countOf tbcOneKey = 1 ∧ KeyListT.tagOf tbcOneKey = 3 ∧
    (KeyListT.read floatType showBits ⟨0, []⟩ tbcOneKey false).thrown = none ∧
    (KeyListT.read floatType showBits ⟨0, []⟩ tbcOneKey false).self.mKeys.length = 1 ∧
    (KeyListT.read floatType showBits ⟨0, []⟩ tbcOneKey false).nif.inp.pos
      = 0 + (8 + 1 * (4 + 4 + 12)) :=
  ⟨by decide, by decide,
    (KeyListT.read_tbc floatType 4 decodeFloat floatType_fixedWidth showBits ⟨0, []⟩
      tbcOneKey false 1 (by decide) (Or.inl (by decide)) (by decide) (by decide)).1,
    (KeyListT.read_tbc floatType 4 decodeFloat floatType_fixedWidth showBits ⟨0, []⟩
      tbcOneKey false 1 (by decide) (Or.inl (by decide)) (by decide) (by decide)).2.2.1,
    (KeyListT.read_tbc floatType 4 decodeFloat floatType_fixedWidth showBits ⟨0, []⟩
      tbcOneKey false 1 (by decide) (Or.inl (by decide)) (by decide) (by decide)).2.2.2.2.1⟩

/-! ## Claims about a well-formed fixed-axis track -/

theorem KeyListT.readXYZAxes_ok : ∀ (ns : List Nat) (i : Nat)
    (keysXYZ : List (List (KeyT F32))) (nif : NIFStream),
    KeyListT.goodAxes ns nif = true →
    ∃ keys1 : List (List (KeyT F32)),
      KeyListT.readXYZAxes ns.length i keysXYZ nif =
        Result.ok keys1 (nif.advance (KeyListT.axesSize ns)) := by
  intro ns
  induction ns with
  | nil =>
    intro i keysXYZ nif _
    exact ⟨keysXYZ, by simp [KeyListT.readXYZAxes, KeyListT.axesSize]⟩
  | cons a rest ih =>
    intro i keysXYZ nif h
    simp only [KeyListT.goodAxes, Bool.and_eq_true, decide_eq_true_eq, beq_iff_eq,
      Bool.or_eq_true] at h
    obtain ⟨⟨⟨hbytes, ha⟩, htag⟩, hrest⟩ := h
    have h1 : nif.inp.pos + 4 ≤ nif.inp.data.length := by
      unfold KeyListT.axisSize at hbytes; omega
    have hsize : KeyListT.axesSize (a :: rest) = KeyListT.axisSize a + KeyListT.axesSize rest := by
      simp [KeyListT.axesSize]
    have hnum : toUInt32 (toInt32 (nif.le32At 0)) = a := by
      rw [toUInt32_toInt32 (nif.le32At_lt 0)]; exact ha
    by_cases ha0 : a = 0
    · have hs : KeyListT.axisSize a = 4 := by simp [KeyListT.axisSize, ha0]
      rw [hs] at hrest
      obtain ⟨keys1, hk⟩ := ih (i + 1) keysXYZ (nif.advance 4) hrest
      refine ⟨keys1, ?_⟩
      rw [hsize, hs]
      simp only [List.length_cons, KeyListT.readXYZAxes, nif.getInt_ok h1, hnum, ha0, ne_eq,
        not_true_eq_false, if_false]
      rw [hk, NIFStream.advance_advance]
    · have hs : KeyListT.axisSize a = 8 + 8 * a := by
        simp only [KeyListT.axisSize, ne_eq, ha0, not_false_eq_true, if_true]; omega
      rw [hs] at hrest hbytes
      have h2 : (nif.advance 4).inp.pos + 4 ≤ (nif.advance 4).inp.data.length := by
        simp only [NIFStream.advance_pos, NIFStream.advance_data]; omega
      have h3 : (nif.advance 8).inp.pos + 8 * a ≤ (nif.advance 8).inp.data.length := by
        simp only [NIFStream.advance_pos, NIFStream.advance_data]; omega
      have ht : toInt32 (nif.le32At 4) = 1 := by
        rcases htag with h | h
        · exact absurd h ha0
        · exact h
      obtain ⟨keysA, hkA⟩ := KeyListT.readXYZKeys_ok a 0
        (resize (keysXYZ.getD i []) a KeyListT.floatInitKey) (nif.advance 8) h3
      rw [NIFStream.advance_advance] at hkA
      obtain ⟨keys1, hk⟩ := ih (i + 1) (keysXYZ.set i keysA) (nif.advance (8 + 8 * a)) hrest
      refine ⟨keys1, ?_⟩
      rw [hsize, hs]
      simp only [List.length_cons, KeyListT.readXYZAxes, nif.getInt_ok h1,
        NIFStream.getInt_ok _ h2, hnum, ne_eq, ha0, not_false_eq_true, if_true,
        NIFStream.le32At_advance, ht, KeyListT.sLinearInterpolation, NIFStream.advance_advance,
        not_true_eq_false, if_false]
      rw [hkA]
      simp only []
      rw [hk, NIFStream.advance_advance]

/-- C17: a fixed-axis track with outer count 1 and tag 4 whose three axes, with
sub-counts `n0`, `n1`, `n2`, are complete and carry nested tag 1 wherever the sub-count
is not 0. `read` returns normally; the cursor has moved by exactly 4 + 4 + 4 plus, for
each axis, 4 and (when the sub-count is not 0) 4 + 8 times the sub-count, so that an
axis with sub-count 0 takes 4 bytes only; the data are untouched; and the track is the
one the header left (tag 4, the one key that `resize` gave): nothing read from the axes
is stored in it. -/
theorem KeyListT.read_xyz_well_formed {T : Type} (vt : ValueType T)
    (realToString : F32 → String) (self : KeyListT T) (nif : NIFStream) (force : Bool)
    (n0 n1 n2 : Nat)
    (h12 : nif.inp.pos + 12 ≤ nif.inp.data.length)
    (hcount : KeyListT.countOf nif = 1) (htag : KeyListT.tagOf nif = 4)
    (hgood : KeyListT.goodAxes [n0, n1, n2] (nif.advance 12) = true) :
    (KeyListT.read vt realToString self nif force).thrown = none ∧
    (KeyListT.read vt realToString self nif force).nif.inp.pos =
      nif.inp.pos + (4 + 4 + 4 +
        ((4 + (if n0 ≠ 0 then 4 + 8 * n0 else 0)) + ((4 + (if n1 ≠ 0 then 4 + 8 * n1 else 0)) +
          (4 + (if n2 ≠ 0 then 4 + 8 * n2 else 0))))) ∧
    (KeyListT.read vt realToString self nif force).nif.inp.data = nif.inp.data ∧
    (KeyListT.read vt realToString self nif force).self.mInterpolationType = 4 ∧
    (KeyListT.read vt realToString self nif force).self.mKeys = resize self.mKeys 1 vt.initKey := by
  have h8 : nif.inp.pos + 8 ≤ nif.inp.data.length := by omega
  have hf : (nif.advance 8).inp.pos + 4 ≤ (nif.advance 8).inp.data.length := by
    simp only [NIFStream.advance_pos, NIFStream.advance_data]; omega
  have hdec : KeyListT.countOf nif ≠ 0 ∨ force = true := Or.inl (by rw [hcount]; decide)
  have hmax : KeyListT.countOf nif ≤ vt.maxSize := by
    have hge := vt.maxSize_ge
    rw [hcount]; omega
  obtain ⟨keys1, hk⟩ := KeyListT.readXYZAxes_ok [n0, n1, n2] 0 [[], [], []] (nif.advance 12) hgood
  have hlen : [n0, n1, n2].length = 3 := rfl
  rw [hlen, NIFStream.advance_advance] at hk
  rw [KeyListT.read_tag_xyz vt realToString self nif force h8 hdec hmax htag]
  unfold KeyListT.readXYZ
  simp only [hcount, ne_eq, not_true_eq_false, if_false, NIFStream.getFloat_ok _ hf,
    NIFStream.advance_advance]
  rw [hk]
  simp [KeyListT.afterHeader, htag, hcount, KeyListT.axesSize, KeyListT.axisSize]

theorem KeyListT.read_xyz_well_formed_witness :
    KeyListT.countOf xyzWellFormed = 1 ∧ KeyListT.tagOf xyzWellFormed = 4 ∧
    KeyListT.goodAxes [2, 0, 1] (xyzWellFormed.advance 12) = true ∧
    (KeyListT.read quaternionType showBits ⟨0, []⟩ xyzWellFormed false).thrown = none ∧
    (KeyListT.read quaternionType showBits ⟨0, []⟩ xyzWellFormed false).self.mKeys
      = resize [] 1 quaternionType.initKey :=
  ⟨by decide, by decide, by decide,
    (KeyListT.read_xyz_well_formed quaternionType showBits ⟨0, []⟩ xyzWellFormed false 2 0 1
      (by decide) (by decide) (by decide) (by decide)).1,
    (KeyListT.read_xyz_well_formed quaternionType showBits ⟨0, []⟩ xyzWellFormed false 2 0 1
      (by decide) (by decide) (by decide) (by decide)).2.2.2.2⟩

/-! ## The shape of the track after `read` -/

theorem KeyListT.forKeys_shape {T : Type} (body : Nat → KeyListT T → NIFStream → Outcome T)
    (hbody : ∀ (i : Nat) (self : KeyListT T) (nif : NIFStream),
      (body i self nif).self.mInterpolationType = self.mInterpolationType ∧
      (body i self nif).self.mKeys.length = self.mKeys.length) :
    ∀ (n i : Nat) (self : KeyListT T) (nif : NIFStream),
      (KeyListT.forKeys body n i self nif).self.mInterpolationType = self.mInterpolationType ∧
      (KeyListT.forKeys body n i self nif).self.mKeys.length = self.mKeys.length := by
  intro n
  induction n with
  | zero => intro i self nif; exact ⟨rfl, rfl⟩
  | succ n ih =>
    intro i self nif
    have hb := hbody i self nif
    unfold KeyListT.forKeys
    rcases hout : body i self nif with ⟨thrown, self1, nif1⟩
    rw [hout] at hb
    cases thrown with
    | none =>
      obtain ⟨h1, h2⟩ := ih (i + 1) self1 nif1
      exact ⟨h1.trans hb.1, h2.trans hb.2⟩
    | some e => exact hb

theorem KeyListT.linearBody_shape {T : Type} (vt : ValueType T) (i : Nat) (self : KeyListT T)
    (nif : NIFStream) :
    (KeyListT.linearBody vt i self nif).self.mInterpolationType = self.mInterpolationType ∧
    (KeyListT.linearBody vt i self nif).self.mKeys.length = self.mKeys.length := by
  unfold KeyListT.linearBody
  repeat' split
  all_goals simp [updateKey_length]

theorem KeyListT.quadraticBody_shape {T : Type} (vt : ValueType T) (i : Nat) (self : KeyListT T)
    (nif : NIFStream) :
    (KeyListT.quadraticBody vt i self nif).self.mInterpolationType = self.mInterpolationType ∧
    (KeyListT.quadraticBody vt i self nif).self.mKeys.length = self.mKeys.length := by
  unfold KeyListT.quadraticBody
  repeat' split
  all_goals simp [updateKey_length]

theorem KeyListT.tbcBody_shape {T : Type} (vt : ValueType T) (i : Nat) (self : KeyListT T)
    (nif : NIFStream) :
    (KeyListT.tbcBody vt i self nif).self.mInterpolationType = self.mInterpolationType ∧
    (KeyListT.tbcBody vt i self nif).self.mKeys.length = self.mKeys.length := by
  unfold KeyListT.tbcBody
  repeat' split
  all_goals simp [updateKey_length]

theorem KeyListT.readXYZ_self {T : Type} (realToString : F32 → String) (count : Nat)
    (self : KeyListT T) (nif : NIFStream) :
    (KeyListT.readXYZ realToString count self nif).self = self := by
  unfold KeyListT.readXYZ
  repeat' split
  all_goals rfl

theorem KeyListT.readXYZ_count {T : Type} (realToString : F32 → String) (count : Nat)
    (self : KeyListT T) (nif : NIFStream)
    (h : (KeyListT.readXYZ realToString count self nif).thrown = none) : count = 1 := by
  unfold KeyListT.readXYZ at h
  by_contra hc
  simp [hc] at h

theorem KeyListT.read_short_count {T : Type} (vt : ValueType T) (realToString : F32 → String)
    (self : KeyListT T) (nif : NIFStream) (force : Bool)
    (h : ¬ nif.inp.pos + 4 ≤ nif.inp.data.length) :
    KeyListT.read vt realToString self nif force = ⟨some Error.shortRead, self, nif⟩ := by
  simp [KeyListT.read, nif.getInt_short h]

theorem KeyListT.read_short_tag {T : Type} (vt : ValueType T) (realToString : F32 → String)
    (self : KeyListT T) (nif : NIFStream) (force : Bool)
    (h4 : nif.inp.pos + 4 ≤ nif.inp.data.length) (h8 : ¬ nif.inp.pos + 8 ≤ nif.inp.data.length)
    (hdec : KeyListT.countOf nif ≠ 0 ∨ force = true) :
    KeyListT.read vt realToString self nif force =
      ⟨some Error.shortRead, self, nif.advance 4⟩ := by
  have h4b : ¬ (nif.advance 4).inp.pos + 4 ≤ (nif.advance 4).inp.data.length := by
    simp only [NIFStream.advance_pos, NIFStream.advance_data]; omega
  have hskip : ¬ (toSizeT (toInt32 (nif.le32At 0)) = 0 ∧ force = false) := by
    rintro ⟨hc, hf⟩
    rcases hdec with h | h
    · exact h hc
    · rw [hf] at h; exact Bool.noConfusion h
  unfold KeyListT.read
  simp only [nif.getInt_ok h4, (nif.advance 4).getInt_short h4b, hskip, if_false]

/-- Whatever the outcome, once the header is read and the track is not skipped the
track carries the tag read and has `count` keys. -/
theorem KeyListT.read_shape {T : Type} (vt : ValueType T) (realToString : F32 → String)
    (self : KeyListT T) (nif : NIFStream) (force : Bool)
    (h8 : nif.inp.pos + 8 ≤ nif.inp.data.length)
    (hdec : KeyListT.countOf nif ≠ 0 ∨ force = true)
    (hmax : KeyListT.countOf nif ≤ vt.maxSize) :
    (KeyListT.read vt realToString self nif force).self.mInterpolationType = KeyListT.tagOf nif ∧
    (KeyListT.read vt realToString self nif force).self.mKeys.length = KeyListT.countOf nif := by
  have hlen : (KeyListT.afterHeader vt self nif).mKeys.length = KeyListT.countOf nif :=
    resize_length _ _ _
  have htag : (KeyListT.afterHeader vt self nif).mInterpolationType = KeyListT.tagOf nif := rfl
  rw [KeyListT.read_decoded vt realToString self nif force h8 hdec hmax]
  split
  · have h := KeyListT.forKeys_shape _ (KeyListT.linearBody_shape vt) (KeyListT.countOf nif) 0
      (KeyListT.afterHeader vt self nif) (nif.advance 8)
    exact ⟨h.1.trans htag, h.2.trans hlen⟩
  · split
    · have h := KeyListT.forKeys_shape _ (KeyListT.quadraticBody_shape vt) (KeyListT.countOf nif)
        0 (KeyListT.afterHeader vt self nif) (nif.advance 8)
      exact ⟨h.1.trans htag, h.2.trans hlen⟩
    · split
      · have h := KeyListT.forKeys_shape _ (KeyListT.tbcBody_shape vt) (KeyListT.countOf nif)
          0 (KeyListT.afterHeader vt self nif) (nif.advance 8)
        exact ⟨h.1.trans htag, h.2.trans hlen⟩
      · split
        · rw [KeyListT.readXYZ_self]
          exact ⟨htag, hlen⟩
        · repeat' split
          all_goals exact ⟨htag, hlen⟩

theorem KeyListT.read_header_of_success {T : Type} (vt : ValueType T)
    (realToString : F32 → String) (self : KeyListT T) (nif : NIFStream) (force : Bool)
    (hnone : (KeyListT.read vt realToString self nif force).thrown = none)
    (hdec : KeyListT.countOf nif ≠ 0 ∨ force = true) :
    nif.inp.pos + 8 ≤ nif.inp.data.length := by
  by_contra h8
  by_cases h4 : nif.inp.pos + 4 ≤ nif.inp.data.length
  · rw [KeyListT.read_short_tag vt realToString self nif force h4 h8 hdec] at hnone
    exact Option.noConfusion hnone
  · rw [KeyListT.read_short_count vt realToString self nif force h4] at hnone
    exact Option.noConfusion hnone

theorem KeyListT.read_tag_of_success {T : Type} (vt : ValueType T)
    (realToString : F32 → String) (self : KeyListT T) (nif : NIFStream) (force : Bool)
    (h8 : nif.inp.pos + 8 ≤ nif.inp.data.length)
    (hdec : KeyListT.countOf nif ≠ 0 ∨ force = true)
    (hmax : KeyListT.countOf nif ≤ vt.maxSize)
    (hnone : (KeyListT.read vt realToString self nif force).thrown = none) :
    (KeyListT.tagOf nif = 0 ∨ KeyListT.tagOf nif = 1 ∨ KeyListT.tagOf nif = 2 ∨
      KeyListT.tagOf nif = 3 ∨ KeyListT.tagOf nif = 4) ∧
    (KeyListT.tagOf nif = 4 → KeyListT.countOf nif = 1) ∧
    (KeyListT.tagOf nif = 0 → KeyListT.countOf nif = 0) := by
  by_cases h1 : KeyListT.tagOf nif = 1
  · exact ⟨Or.inr (Or.inl h1), fun h => by rw [h1] at h; exact absurd h (by decide),
      fun h => by rw [h1] at h; exact absurd h (by decide)⟩
  by_cases h2 : KeyListT.tagOf nif = 2
  · exact ⟨Or.inr (Or.inr (Or.inl h2)), fun h => by rw [h2] at h; exact absurd h (by decide),
      fun h => by rw [h2] at h; exact absurd h (by decide)⟩
  by_cases h3 : KeyListT.tagOf nif = 3
  · exact ⟨Or.inr (Or.inr (Or.inr (Or.inl h3))),
      fun h => by rw [h3] at h; exact absurd h (by decide),
      fun h => by rw [h3] at h; exact absurd h (by decide)⟩
  by_cases h4 : KeyListT.tagOf nif = 4
  · rw [KeyListT.read_tag_xyz vt realToString self nif force h8 hdec hmax h4] at hnone
    exact ⟨Or.inr (Or.inr (Or.inr (Or.inr h4))),
      fun _ => KeyListT.readXYZ_count _ _ _ _ hnone,
      fun h => by rw [h4] at h; exact absurd h (by decide)⟩
  by_cases h0 : KeyListT.tagOf nif = 0
  · refine ⟨Or.inl h0, fun h => absurd h h4, fun _ => ?_⟩
    by_contra hc
    rw [KeyListT.read_decoded vt realToString self nif force h8 hdec hmax] at hnone
    simp [h0, hc, KeyListT.sLinearInterpolation, KeyListT.sQuadraticInterpolation,
      KeyListT.sTBCInterpolation, KeyListT.sXYZInterpolation] at hnone
  · exfalso
    rw [KeyListT.read_decoded vt realToString self nif force h8 hdec hmax] at hnone
    simp [h0, h1, h2, h3, h4, KeyListT.sLinearInterpolation, KeyListT.sQuadraticInterpolation,
      KeyListT.sTBCInterpolation, KeyListT.sXYZInterpolation] at hnone

theorem toInt32_eq_cast_of_nonneg {u : Nat} (h : u < 2 ^ 32) (h0 : 0 ≤ toInt32 u) :
    toInt32 u = (u : Int) := by
  unfold toInt32 at h0 ⊢
  have h1 : u % 2 ^ 32 = u := Nat.mod_eq_of_lt h
  rw [h1] at h0 ⊢
  split
  · rfl
  · rename_i hge
    rw [if_neg hge] at h0
    omega

/-- C18: whenever `read` returns normally on a track that is not skipped (count field
nonzero, or `force`), the count field being below `2 ^ 31`, the track has exactly as
many keys as the count field says and its tag is the tag field read; a track so
returned with tag 4 has exactly one key, and one with tag 0 has none. -/
theorem KeyListT.read_success_invariant {T : Type} (vt : ValueType T)
    (realToString : F32 → String) (self : KeyListT T) (nif : NIFStream) (force : Bool)
    (hnone : (KeyListT.read vt realToString self nif force).thrown = none)
    (hdec : nif.le32At 0 ≠ 0 ∨ force = true) (hlt : nif.le32At 0 < 2 ^ 31) :
    (KeyListT.read vt realToString self nif force).self.mKeys.length = nif.le32At 0 ∧
    (KeyListT.read vt realToString self nif force).self.mInterpolationType
      = ((nif.le32At 4 : Nat) : Int) ∧
    ((KeyListT.read vt realToString self nif force).self.mInterpolationType = 4 →
      (KeyListT.read vt realToString self nif force).self.mKeys.length = 1) ∧
    ((KeyListT.read vt realToString self nif force).self.mInterpolationType = 0 →
      (KeyListT.read vt realToString self nif force).self.mKeys.length = 0) := by
  have hdec1 : KeyListT.countOf nif ≠ 0 ∨ force = true := by
    rcases hdec with h | h
    · exact Or.inl (fun hc => h ((KeyListT.countOf_eq_zero nif).1 hc))
    · exact Or.inr h
  have hmax : KeyListT.countOf nif ≤ vt.maxSize := KeyListT.countOf_le_maxSize_of_lt vt nif hlt
  have h8 := KeyListT.read_header_of_success vt realToString self nif force hnone hdec1
  obtain ⟨hs1, hs2⟩ := KeyListT.read_shape vt realToString self nif force h8 hdec1 hmax
  obtain ⟨ht, ht4, ht0⟩ := KeyListT.read_tag_of_success vt realToString self nif force h8 hdec1 hmax hnone
  have hnn : 0 ≤ toInt32 (nif.le32At 4) := by
    have : toInt32 (nif.le32At 4) = KeyListT.tagOf nif := rfl
    rw [this]
    rcases ht with h | h | h | h | h <;> rw [h] <;> decide
  refine ⟨?_, ?_, ?_, ?_⟩
  · rw [hs2, KeyListT.countOf_of_lt nif hlt]
  · rw [hs1]
    exact toInt32_eq_cast_of_nonneg (nif.le32At_lt 4) hnn
  · intro h
    rw [hs1] at h
    rw [hs2, ht4 h]
  · intro h
    rw [hs1] at h
    rw [hs2, ht0 h]

theorem KeyListT.read_success_invariant_witness :
    (KeyListT.read floatType showBits trackWithKey linearTwoKeys false).thrown = none ∧
    linearTwoKeys.le32At 0 < 2 ^ 31 ∧
    (KeyListT.read floatType showBits trackWithKey linearTwoKeys false).self.mKeys.length
      = linearTwoKeys.le32At 0 ∧
    (KeyListT.read floatType showBits trackWithKey linearTwoKeys false).self.mInterpolationType
      = ((linearTwoKeys.le32At 4 : Nat) : Int) :=
  ⟨by decide, by decide,
    (KeyListT.read_success_invariant floatType showBits trackWithKey linearTwoKeys false
      (by decide) (Or.inl (by decide)) (by decide)).1,
    (KeyListT.read_success_invariant floatType showBits trackWithKey linearTwoKeys false
      (by decide) (Or.inl (by decide)) (by decide)).2.1⟩

/-! ## Failure after the tag is read -/

theorem KeyListT.readXYZ_bad {T : Type} (realToString : F32 → String) (self : KeyListT T)
    (nif : NIFStream) (pre : List Nat) (hpre : pre.length < 3)
    (hbad : KeyListT.badAxisAfter pre (nif.advance 4) = true) :
    ∃ msg : String,
      (KeyListT.readXYZ realToString 1 self nif).thrown = some (Error.runtime_error msg) := by
  have hbytes := KeyListT.badAxisAfter_bytes pre _ hbad
  simp only [NIFStream.advance_pos, NIFStream.advance_data] at hbytes
  have h4 : nif.inp.pos + 4 ≤ nif.inp.data.length := by omega
  have haxes := KeyListT.readXYZAxes_bad pre 3 0 [[], [], []] (nif.advance 4) hpre hbad
  unfold KeyListT.readXYZ
  simp only [ne_eq, not_true_eq_false, if_false, nif.getFloat_ok h4]
  rw [haxes]
  exact ⟨_, rfl⟩

/-- C19, as the code has it: `read` is not atomic on failure. On a track that is not
skipped, in each of the failures that follow the reading of the tag (a tag outside 0..4;
tag 0 with a nonzero count; tag 4 with a count other than 1; tag 4 with a nested tag
other than 1 on some axis), the track at the throw already carries the tag read. When
the count field is below `2 ^ 31`, `read` throws an error of `NIFFile::fail` and the keys
are already resized to `count` entries. When the count field is `2 ^ 31` or more, what
is thrown is the `std::length_error` of `resize` and the keys are those before the call.
Whenever the track had another tag before the call, it is not the track it was. -/
theorem KeyListT.read_failure_not_atomic {T : Type} (vt : ValueType T)
    (realToString : F32 → String) (self : KeyListT T) (nif : NIFStream) (force : Bool)
    (h8 : nif.inp.pos + 8 ≤ nif.inp.data.length)
    (hdec : KeyListT.countOf nif ≠ 0 ∨ force = true)
    (hfail :
      ¬ (KeyListT.tagOf nif = 0 ∨ KeyListT.tagOf nif = 1 ∨ KeyListT.tagOf nif = 2 ∨
          KeyListT.tagOf nif = 3 ∨ KeyListT.tagOf nif = 4) ∨
      (KeyListT.tagOf nif = 0 ∧ KeyListT.countOf nif ≠ 0) ∨
      (KeyListT.tagOf nif = 4 ∧ KeyListT.countOf nif ≠ 1) ∨
      (KeyListT.tagOf nif = 4 ∧ ∃ pre : List Nat, pre.length < 3 ∧
        KeyListT.badAxisAfter pre (nif.advance 12) = true)) :
    (KeyListT.read vt realToString self nif force).self.mInterpolationType = KeyListT.tagOf nif ∧
    (nif.le32At 0 < 2 ^ 31 →
      (∃ msg : String,
        (KeyListT.read vt realToString self nif force).thrown = some (Error.runtime_error msg)) ∧
      (KeyListT.read vt realToString self nif force).self.mKeys
        = resize self.mKeys (KeyListT.countOf nif) vt.initKey ∧
      (KeyListT.read vt realToString self nif force).self.mKeys.length = KeyListT.countOf nif) ∧
    (2 ^ 31 ≤ nif.le32At 0 →
      (KeyListT.read vt realToString self nif force).thrown = some Error.length_error ∧
      (KeyListT.read vt realToString self nif force).self.mKeys = self.mKeys) ∧
    (self.mInterpolationType ≠ KeyListT.tagOf nif →
      (KeyListT.read vt realToString self nif force).self ≠ self) := by
  have hsmall : nif.le32At 0 < 2 ^ 31 →
      (KeyListT.read vt realToString self nif force).self = KeyListT.afterHeader vt self nif ∧
      ∃ msg : String,
        (KeyListT.read vt realToString self nif force).thrown
          = some (Error.runtime_error msg) := by
    intro hlt
    have hmax := KeyListT.countOf_le_maxSize_of_lt vt nif hlt
    have hxyz : KeyListT.tagOf nif = 4 →
        (KeyListT.countOf nif ≠ 1 ∨ ∃ pre : List Nat, pre.length < 3 ∧
          KeyListT.badAxisAfter pre (nif.advance 12) = true) →
        ∃ msg : String,
          (KeyListT.read vt realToString self nif force).thrown
            = some (Error.runtime_error msg) := by
      intro h4 hcase
      rw [KeyListT.read_tag_xyz vt realToString self nif force h8 hdec hmax h4]
      by_cases hc : KeyListT.countOf nif = 1
      · rcases hcase with h | ⟨pre, hpre, hbad⟩
        · exact absurd hc h
        · rw [hc]
          have hbad1 : KeyListT.badAxisAfter pre ((nif.advance 8).advance 4) = true := by
            rw [NIFStream.advance_advance]; exact hbad
          exact KeyListT.readXYZ_bad realToString _ (nif.advance 8) pre hpre hbad1
      · unfold KeyListT.readXYZ
        simp only [ne_eq, hc, not_false_eq_true, if_true, NIFFile.fail]
        exact ⟨_, rfl⟩
    rcases hfail with h | ⟨h0, hc⟩ | ⟨h4, hc⟩ | ⟨h4, hb⟩
    · have h0 : ¬ KeyListT.tagOf nif = 0 := fun e => h (Or.inl e)
      have h1 : ¬ KeyListT.tagOf nif = 1 := fun e => h (Or.inr (Or.inl e))
      have h2 : ¬ KeyListT.tagOf nif = 2 := fun e => h (Or.inr (Or.inr (Or.inl e)))
      have h3 : ¬ KeyListT.tagOf nif = 3 := fun e => h (Or.inr (Or.inr (Or.inr (Or.inl e))))
      have h4 : ¬ KeyListT.tagOf nif = 4 := fun e => h (Or.inr (Or.inr (Or.inr (Or.inr e))))
      rw [KeyListT.read_decoded vt realToString self nif force h8 hdec hmax]
      simp [h0, h1, h2, h3, h4, KeyListT.sLinearInterpolation,
        KeyListT.sQuadraticInterpolation, KeyListT.sTBCInterpolation,
        KeyListT.sXYZInterpolation, NIFFile.fail]
    · rw [KeyListT.read_decoded vt realToString self nif force h8 hdec hmax]
      simp [h0, hc, KeyListT.sLinearInterpolation, KeyListT.sQuadraticInterpolation,
        KeyListT.sTBCInterpolation, KeyListT.sXYZInterpolation, NIFFile.fail]
    · refine ⟨?_, hxyz h4 (Or.inl hc)⟩
      rw [KeyListT.read_tag_xyz vt realToString self nif force h8 hdec hmax h4,
        KeyListT.readXYZ_self]
    · refine ⟨?_, hxyz h4 (Or.inr hb)⟩
      rw [KeyListT.read_tag_xyz vt realToString self nif force h8 hdec hmax h4,
        KeyListT.readXYZ_self]
  have hbig : 2 ^ 31 ≤ nif.le32At 0 →
      KeyListT.read vt realToString self nif force =
        ⟨some Error.length_error, { self with mInterpolationType := KeyListT.tagOf nif },
          nif.advance 8⟩ := by
    intro hge
    exact KeyListT.read_length_error vt realToString self nif force h8 hdec
      (KeyListT.maxSize_lt_countOf_of_ge vt nif hge)
  have htagset : (KeyListT.read vt realToString self nif force).self.mInterpolationType
      = KeyListT.tagOf nif := by
    by_cases hlt : nif.le32At 0 < 2 ^ 31
    · rw [(hsmall hlt).1]; rfl
    · rw [hbig (by omega)]
  refine ⟨htagset, ?_, ?_, ?_⟩
  · intro hlt
    obtain ⟨hself, hthrown⟩ := hsmall hlt
    refine ⟨hthrown, by rw [hself]; rfl, ?_⟩
    rw [hself]; exact resize_length _ _ _
  · intro hge
    rw [hbig hge]
    exact ⟨rfl, rfl⟩
  · intro hne heq
    apply hne
    rw [← htagset, heq]

theorem KeyListT.read_failure_not_atomic_witness :
    KeyListT.tagOf (NIFStream.ofBytes "a.nif" [3, 0, 0, 0, 7, 0, 0, 0]) = 7 ∧
    KeyListT.countOf (NIFStream.ofBytes "a.nif" [3, 0, 0, 0, 7, 0, 0, 0]) = 3 ∧
    trackWithKey.mInterpolationType = 2 ∧ trackWithKey.mKeys.length = 1 ∧
    (KeyListT.read floatType showBits trackWithKey
      (NIFStream.ofBytes "a.nif" [3, 0, 0, 0, 7, 0, 0, 0]) false).self.mInterpolationType
      = KeyListT.tagOf (NIFStream.ofBytes "a.nif" [3, 0, 0, 0, 7, 0, 0, 0]) ∧
    (KeyListT.read floatType showBits trackWithKey
      (NIFStream.ofBytes "a.nif" [3, 0, 0, 0, 7, 0, 0, 0]) false).self.mKeys.length
      = KeyListT.countOf (NIFStream.ofBytes "a.nif" [3, 0, 0, 0, 7, 0, 0, 0]) ∧
    (KeyListT.read floatType showBits trackWithKey
      (NIFStream.ofBytes "a.nif" [3, 0, 0, 0, 7, 0, 0, 0]) false).self ≠ trackWithKey :=
  ⟨by decide, by decide, by decide, by decide,
    (KeyListT.read_failure_not_atomic floatType showBits trackWithKey
      (NIFStream.ofBytes "a.nif" [3, 0, 0, 0, 7, 0, 0, 0]) false (by decide)
      (Or.inl (by decide)) (Or.inl (by decide))).1,
    ((KeyListT.read_failure_not_atomic floatType showBits trackWithKey
      (NIFStream.ofBytes "a.nif" [3, 0, 0, 0, 7, 0, 0, 0]) false (by decide)
      (Or.inl (by decide)) (Or.inl (by decide))).2.1 (by decide)).2.2,
    (KeyListT.read_failure_not_atomic floatType showBits trackWithKey
      (NIFStream.ofBytes "a.nif" [3, 0, 0, 0, 7, 0, 0, 0]) false (by decide)
      (Or.inl (by decide)) (Or.inl (by decide))).2.2.2 (by decide)⟩

/-- C19, as stated, fails: on the count field 0xFFFFFFFF with the tag 7 (a tag outside
0..4, the track not skipped) `read` fails after reading the tag with the key list not
resized: it still has the one key it had, not `count` entries; the tag is already 7. -/
theorem KeyListT.read_failure_huge_count_keys_untouched :
    KeyListT.tagOf hugeCountTagSeven = 7 ∧
    KeyListT.countOf hugeCountTagSeven = 2 ^ 64 - 1 ∧
    (KeyListT.read floatType showBits trackWithKey hugeCountTagSeven false).thrown
      = some Error.length_error ∧
    (KeyListT.read floatType showBits trackWithKey hugeCountTagSeven false).self.mKeys.length
      = 1 ∧
    (KeyListT.read floatType showBits trackWithKey hugeCountTagSeven false).self.mInterpolationType
      = 7 := by
  decide

/-! ## Claims about the record accessors -/

/-- C13: `getRecord(i)` fails (with `std::out_of_range`) for every `i >= numRecords()`
and (on the assertion) for an index in range whose entry is null; whenever it returns,
the result is the `i`-th entry of the record list, and is not null. The same holds of
`getRoot(i)` and the root list; in particular `getRoot()`, that is `getRoot(0)`, fails
on an empty root list. -/
theorem NIFFile.getRecord_getRoot (file : NIFFile) (i : Nat) :
    (file.numRecords ≤ i → file.getRecord i = Except.error Error.out_of_range) ∧
    (file.records[i]? = some none → file.getRecord i = Except.error Error.assertion) ∧
    (∀ res : Option Record, file.getRecord i = Except.ok res →
      file.records[i]? = some res ∧ res ≠ none) ∧
    (file.numRoots ≤ i → file.getRoot i = Except.error Error.out_of_range) ∧
    (file.roots[i]? = some none → file.getRoot i = Except.error Error.assertion) ∧
    (∀ res : Option Record, file.getRoot i = Except.ok res →
      file.roots[i]? = some res ∧ res ≠ none) ∧
    (file.roots = [] → file.getRoot 0 = Except.error Error.out_of_range) := by
  refine ⟨?_, ?_, ?_, ?_, ?_, ?_, ?_⟩
  · intro h
    have : file.records[i]? = none := List.getElem?_eq_none h
    simp [NIFFile.getRecord, this]
  · intro h
    simp [NIFFile.getRecord, h]
  · intro res h
    unfold NIFFile.getRecord at h
    cases hr : file.records[i]? with
    | none => rw [hr] at h; exact Except.noConfusion h
    | some p =>
      rw [hr] at h
      by_cases hp : p = none
      · simp [hp] at h
      · simp only [hp, if_false] at h
        have hpe : p = res := Except.ok.inj h
        subst hpe
        exact ⟨rfl, hp⟩
  · intro h
    have : file.roots[i]? = none := List.getElem?_eq_none h
    simp [NIFFile.getRoot, this]
  · intro h
    simp [NIFFile.getRoot, h]
  · intro res h
    unfold NIFFile.getRoot at h
    cases hr : file.roots[i]? with
    | none => rw [hr] at h; exact Except.noConfusion h
    | some p =>
      rw [hr] at h
      by_cases hp : p = none
      · simp [hp] at h
      · simp only [hp, if_false] at h
        have hpe : p = res := Except.ok.inj h
        subst hpe
        exact ⟨rfl, hp⟩
  · intro h
    simp [NIFFile.getRoot, h]

theorem NIFFile.getRecord_getRoot_witness :
    fileWithNull.numRecords ≤ 3 ∧ fileWithNull.records[1]? = some none ∧
    fileWithNull.getRecord 3 = Except.error Error.out_of_range ∧
    fileWithNull.getRecord 1 = Except.error Error.assertion ∧
    fileWithNull.getRoot 0 = Except.error Error.out_of_range ∧
    fileWithNull.getRecord 2 = Except.ok (some (Record.mk 300)) :=
  ⟨by decide, by decide,
    (NIFFile.getRecord_getRoot fileWithNull 3).1 (by decide),
    (NIFFile.getRecord_getRoot fileWithNull 1).2.1 (by decide),
    (NIFFile.getRecord_getRoot fileWithNull 0).2.2.2.2.2.2 rfl,
    rfl⟩

/-! ## Claims about the generic readers -/

/-- C20: `getIfVer` gates on equality of the file's version with `testVersion`, as the
C++ comparison takes it (both as `unsigned int`): on equality it is `get`, with the same
result and the same stream; otherwise, lower or higher, it returns `T()` and leaves the
stream as it is. For a version that is not negative the comparison is equality of the
numbers. -/
theorem NIFStream.getIfVer_exact {T : Type} (get : NIFStream → Result T) (init : T)
    (nif : NIFStream) (testVersion : Nat) :
    (toUInt32 nif.file.getVersion = testVersion % 2 ^ 32 →
      NIFStream.getIfVer get init nif testVersion = get nif) ∧
    (toUInt32 nif.file.getVersion ≠ testVersion % 2 ^ 32 →
      NIFStream.getIfVer get init nif testVersion = Result.ok init nif) ∧
    (0 ≤ nif.file.getVersion → nif.file.getVersion < 2 ^ 31 → testVersion < 2 ^ 32 →
      (nif.file.getVersion = (testVersion : Int) →
        NIFStream.getIfVer get init nif testVersion = get nif) ∧
      (nif.file.getVersion ≠ (testVersion : Int) →
        NIFStream.getIfVer get init nif testVersion = Result.ok init nif)) := by
  refine ⟨?_, ?_, ?_⟩
  · intro h
    unfold NIFStream.getIfVer
    rw [if_pos h]
  · intro h
    unfold NIFStream.getIfVer
    rw [if_neg h]
  · intro h0 h1 hv
    have hmod : testVersion % 2 ^ 32 = testVersion := Nat.mod_eq_of_lt hv
    have hconv : toUInt32 nif.file.getVersion = testVersion ↔
        nif.file.getVersion = (testVersion : Int) := by
      unfold toUInt32
      omega
    constructor
    · intro h
      unfold NIFStream.getIfVer
      rw [hmod, if_pos (hconv.2 h)]
    · intro h
      have hne : ¬ toUInt32 nif.file.getVersion = testVersion := fun e => h (hconv.1 e)
      unfold NIFStream.getIfVer
      rw [hmod, if_neg hne]

theorem NIFStream.getIfVer_exact_witness :
    streamOfVersion.file.getVersion = 0x04000002 ∧
    NIFStream.getIfVer NIFStream.getFloat (F32.mk 0) streamOfVersion 0x04000002
      = streamOfVersion.getFloat ∧
    NIFStream.getIfVer NIFStream.getFloat (F32.mk 0) streamOfVersion 0x04000001
      = Result.ok (F32.mk 0) streamOfVersion ∧
    NIFStream.getIfVer NIFStream.getFloat (F32.mk 0) streamOfVersion 0x04000003
      = Result.ok (F32.mk 0) streamOfVersion :=
  ⟨by decide,
    ((NIFStream.getIfVer_exact NIFStream.getFloat (F32.mk 0) streamOfVersion 0x04000002).2.2
      (by decide) (by decide) (by decide)).1 (by decide),
    ((NIFStream.getIfVer_exact NIFStream.getFloat (F32.mk 0) streamOfVersion 0x04000001).2.2
      (by decide) (by decide) (by decide)).2 (by decide),
    ((NIFStream.getIfVer_exact NIFStream.getFloat (F32.mk 0) streamOfVersion 0x04000003).2.2
      (by decide) (by decide) (by decide)).2 (by decide)⟩

/-- C15, as the code has it: the generic `get<T>()` always throws, with the stream as it
was (no byte consumed). What it throws is a `std::runtime_error`, the class of the
errors of `NIFFile::fail`; it differs from every error of `NIFFile::fail` by its text
only, which has neither the prefix "NIFFile Error: " nor the name of the file. -/
theorem NIFStream.get_throws {T : Type} (typeName : String) (nif : NIFStream) :
    (NIFStream.get typeName nif : Result T).thrown =
      some (Error.runtime_error ("Can not read a <" ++ typeName ++ "> from a NIF File!  The get() function was called with the wrong template!")) ∧
    (NIFStream.get typeName nif : Result T).stream = nif ∧
    (∀ e : Error, (NIFStream.get typeName nif : Result T).thrown = some e →
      (∀ (file : NIFFile) (msg : String), e.cls = (file.fail msg).cls) ∧
      (∀ (file : NIFFile) (msg : String), e ≠ file.fail msg)) := by
  refine ⟨rfl, rfl, ?_⟩
  intro e he
  have he1 : e = Error.runtime_error ("Can not read a <" ++ typeName ++ "> from a NIF File!  The get() function was called with the wrong template!") :=
    (Option.some.inj he).symm
  subst he1
  refine ⟨fun _ _ => rfl, ?_⟩
  intro file msg h
  unfold NIFFile.fail at h
  have h1 := congrArg String.data (Error.runtime_error.inj h)
  simp [String.data_append] at h1

/-- C15, as stated, fails: the error of the generic `get<T>()` and an error of
`NIFFile::fail` are of the same class, `std::runtime_error`. -/
theorem NIFStream.get_same_class_as_fail :
    ∃ e : Error,
      (NIFStream.get "f" (NIFStream.ofBytes "a.nif" [1, 2, 3, 4]) : Result F32).thrown = some e ∧
      e.cls = ErrorClass.std_runtime_error ∧
      ((NIFStream.ofBytes "a.nif" [1, 2, 3, 4]).file.fail
        "Interpolation type 0 doesn't work with keys").cls = ErrorClass.std_runtime_error :=
  ⟨_, rfl, rfl, rfl⟩

/-! ## Claims about the integer readers -/

theorem fitting_of_lt (l : List Byte) (h : l.length < 2 ^ 62) : fitting l = l := by
  unfold fitting
  rw [if_pos h]

theorem byteAt_streamAt (pre enc rest : List Byte) (k : Nat) (hk : k < enc.length)
    (henc : enc.length < 2 ^ 62) :
    (streamAt pre enc rest).byteAt k = (enc.getD k 0).val := by
  unfold NIFStream.byteAt streamAt
  have h1 : (fitting pre ++ (fitting enc ++ fitting rest))[(fitting pre).length + k]? = enc[k]? := by
    rw [fitting_of_lt enc henc, List.getElem?_append_right (Nat.le_add_right _ _),
      Nat.add_sub_cancel_left, List.getElem?_append_left hk]
  simp only [h1, List.getD_eq_getElem?_getD, List.getElem?_eq_getElem hk]
  rfl

theorem streamAt_bytes (pre enc rest : List Byte) (henc : enc.length < 2 ^ 62) :
    (streamAt pre enc rest).inp.pos + enc.length ≤ (streamAt pre enc rest).inp.data.length := by
  simp [streamAt, fitting_of_lt enc henc]

theorem toInt16_range (u : Nat) (h : u < 2 ^ 16) :
    -2 ^ 15 ≤ toInt16 u ∧ toInt16 u < 2 ^ 15 ∧ toInt16 u % 2 ^ 16 = (u : Int) := by
  unfold toInt16
  have h1 : u % 2 ^ 16 = u := Nat.mod_eq_of_lt h
  rw [h1]
  split <;> omega

theorem toInt32_range (u : Nat) (h : u < 2 ^ 32) :
    -2 ^ 31 ≤ toInt32 u ∧ toInt32 u < 2 ^ 31 ∧ toInt32 u % 2 ^ 32 = (u : Int) := by
  unfold toInt32
  have h1 : u % 2 ^ 32 = u := Nat.mod_eq_of_lt h
  rw [h1]
  split <;> omega

theorem toInt16_of_int (i : Int) (h0 : -2 ^ 15 ≤ i) (h1 : i < 2 ^ 15) :
    toInt16 (i % 2 ^ 16).toNat = i := by
  unfold toInt16
  have h2 : (i % 2 ^ 16).toNat % 2 ^ 16 = (i % 2 ^ 16).toNat := by omega
  rw [h2]
  split <;> omega

theorem toInt32_of_int (i : Int) (h0 : -2 ^ 31 ≤ i) (h1 : i < 2 ^ 31) :
    toInt32 (i % 2 ^ 32).toNat = i := by
  unfold toInt32
  have h2 : (i % 2 ^ 32).toNat % 2 ^ 32 = (i % 2 ^ 32).toNat := by omega
  rw [h2]
  split <;> omega

theorem read_le16_encode (pre rest : List Byte) (v : Nat) (hv : v < 2 ^ 16) :
    (streamAt pre (encode_le16 v) rest).read_le16 =
      Result.ok v ((streamAt pre (encode_le16 v) rest).advance 2) := by
  have hlen : (encode_le16 v).length = 2 := rfl
  have hfit : (encode_le16 v).length < 2 ^ 62 := by rw [hlen]; decide
  have hb := streamAt_bytes pre (encode_le16 v) rest hfit
  rw [hlen] at hb
  unfold NIFStream.read_le16
  rw [if_pos hb, byteAt_streamAt pre _ rest 0 (by rw [hlen]; omega) hfit, byteAt_streamAt pre _ rest 1 (by rw [hlen]; omega) hfit]
  have hval : ((encode_le16 v).getD 0 0).val + 2 ^ 8 * ((encode_le16 v).getD 1 0).val = v := by
    simp only [encode_le16, toByte, List.getD_cons_zero, List.getD_cons_succ]
    omega
  rw [hval]

theorem read_le32_encode (pre rest : List Byte) (v : Nat) (hv : v < 2 ^ 32) :
    (streamAt pre (encode_le32 v) rest).read_le32 =
      Result.ok v ((streamAt pre (encode_le32 v) rest).advance 4) := by
  have hlen : (encode_le32 v).length = 4 := rfl
  have hfit : (encode_le32 v).length < 2 ^ 62 := by rw [hlen]; decide
  have hb := streamAt_bytes pre (encode_le32 v) rest hfit
  rw [hlen] at hb
  rw [NIFStream.read_le32_ok _ hb]
  unfold NIFStream.le32At
  rw [byteAt_streamAt pre _ rest 0 (by rw [hlen]; omega) hfit, byteAt_streamAt pre _ rest (0 + 1) (by rw [hlen]; omega) hfit,
    byteAt_streamAt pre _ rest (0 + 2) (by rw [hlen]; omega) hfit, byteAt_streamAt pre _ rest (0 + 3) (by rw [hlen]; omega) hfit]
  have hval : ((encode_le32 v).getD 0 0).val + 2 ^ 8 * ((encode_le32 v).getD (0 + 1) 0).val
      + 2 ^ 16 * ((encode_le32 v).getD (0 + 2) 0).val
      + 2 ^ 24 * ((encode_le32 v).getD (0 + 3) 0).val = v := by
    simp only [encode_le32, toByte, List.getD_cons_zero, List.getD_cons_succ, Nat.zero_add]
    omega
  rw [hval]

theorem read_byte_encode (pre rest : List Byte) (v : Nat) (hv : v < 2 ^ 8) :
    (streamAt pre (encode_byte v) rest).read_byte =
      Result.ok v ((streamAt pre (encode_byte v) rest).advance 1) := by
  have hlen : (encode_byte v).length = 1 := rfl
  have hfit : (encode_byte v).length < 2 ^ 62 := by rw [hlen]; decide
  have hb := streamAt_bytes pre (encode_byte v) rest hfit
  rw [hlen] at hb
  unfold NIFStream.read_byte
  rw [if_pos hb, byteAt_streamAt pre _ rest 0 (by rw [hlen]; omega) hfit]
  have hval : ((encode_byte v).getD 0 0).val = v := by
    simp only [encode_byte, toByte, List.getD_cons_zero]
    omega
  rw [hval]

/-- C14: with `b0 b1 b2 b3` the bytes at the cursor, each integer reader consumes
exactly its width and decodes little-endian. `getChar` takes 1 byte and returns `b0`;
`getUShort` takes 2 bytes and returns `b0 + 256 * b1`; `getUInt` takes 4 bytes and
returns `b0 + 2^8 * b1 + 2^16 * b2 + 2^24 * b3`; `getShort` and `getInt` take the same
bytes and return the two's-complement reading of the same value (in range, and equal
to it modulo `2^16`, respectively `2^32`). A value assembled in little-endian order
and read back is the value, for each of the five readers. -/
theorem NIFStream.integer_getters (nif : NIFStream) (pre rest : List Byte) (v : Nat) (i : Int) :
    (nif.inp.pos + 1 ≤ nif.inp.data.length →
      nif.getChar = Result.ok (nif.byteAt 0) (nif.advance 1)) ∧
    (nif.inp.pos + 2 ≤ nif.inp.data.length →
      nif.getUShort = Result.ok (nif.byteAt 0 + 256 * nif.byteAt 1) (nif.advance 2)) ∧
    (nif.inp.pos + 4 ≤ nif.inp.data.length →
      nif.getUInt = Result.ok
        (nif.byteAt 0 + 2 ^ 8 * nif.byteAt 1 + 2 ^ 16 * nif.byteAt 2 + 2 ^ 24 * nif.byteAt 3)
        (nif.advance 4)) ∧
    (nif.inp.pos + 2 ≤ nif.inp.data.length →
      ∃ s : Int, nif.getShort = Result.ok s (nif.advance 2) ∧ -2 ^ 15 ≤ s ∧ s < 2 ^ 15 ∧
        s % 2 ^ 16 = ((nif.byteAt 0 + 256 * nif.byteAt 1 : Nat) : Int)) ∧
    (nif.inp.pos + 4 ≤ nif.inp.data.length →
      ∃ s : Int, nif.getInt = Result.ok s (nif.advance 4) ∧ -2 ^ 31 ≤ s ∧ s < 2 ^ 31 ∧
        s % 2 ^ 32 = ((nif.byteAt 0 + 2 ^ 8 * nif.byteAt 1 + 2 ^ 16 * nif.byteAt 2
          + 2 ^ 24 * nif.byteAt 3 : Nat) : Int)) ∧
    (v < 2 ^ 8 → (streamAt pre (encode_byte v) rest).getChar =
      Result.ok v ((streamAt pre (encode_byte v) rest).advance 1)) ∧
    (v < 2 ^ 16 → (streamAt pre (encode_le16 v) rest).getUShort =
      Result.ok v ((streamAt pre (encode_le16 v) rest).advance 2)) ∧
    (v < 2 ^ 32 → (streamAt pre (encode_le32 v) rest).getUInt =
      Result.ok v ((streamAt pre (encode_le32 v) rest).advance 4)) ∧
    (-2 ^ 15 ≤ i → i < 2 ^ 15 →
      (streamAt pre (encode_le16 (i % 2 ^ 16).toNat) rest).getShort =
        Result.ok i ((streamAt pre (encode_le16 (i % 2 ^ 16).toNat) rest).advance 2)) ∧
    (-2 ^ 31 ≤ i → i < 2 ^ 31 →
      (streamAt pre (encode_le32 (i % 2 ^ 32).toNat) rest).getInt =
        Result.ok i ((streamAt pre (encode_le32 (i % 2 ^ 32).toNat) rest).advance 4)) := by
  have hb0 := nif.byteAt_lt 0
  have hb1 := nif.byteAt_lt 1
  refine ⟨?_, ?_, ?_, ?_, ?_, ?_, ?_, ?_, ?_, ?_⟩
  · intro h
    simp [NIFStream.getChar, NIFStream.read_byte, h]
  · intro h
    simp [NIFStream.getUShort, NIFStream.read_le16, h]
  · intro h
    have h1 := nif.read_le32_ok h
    unfold NIFStream.le32At at h1
    simpa [NIFStream.getUInt] using h1
  · intro h
    have hr := toInt16_range (nif.byteAt 0 + 256 * nif.byteAt 1) (by omega)
    refine ⟨toInt16 (nif.byteAt 0 + 256 * nif.byteAt 1), ?_, hr.1, hr.2.1, hr.2.2⟩
    simp [NIFStream.getShort, NIFStream.read_le16, h]
  · intro h
    have hlt := nif.le32At_lt 0
    have hr := toInt32_range (nif.le32At 0) hlt
    have hle : nif.le32At 0 = nif.byteAt 0 + 2 ^ 8 * nif.byteAt 1 + 2 ^ 16 * nif.byteAt 2
        + 2 ^ 24 * nif.byteAt 3 := by
      simp [NIFStream.le32At]
    rw [hle] at hr
    refine ⟨_, ?_, hr.1, hr.2.1, hr.2.2⟩
    rw [nif.getInt_ok h, hle]
  · intro hv
    exact read_byte_encode pre rest v hv
  · intro hv
    exact read_le16_encode pre rest v hv
  · intro hv
    exact read_le32_encode pre rest v hv
  · intro h0 h1
    have hu : (i % 2 ^ 16).toNat < 2 ^ 16 := by omega
    unfold NIFStream.getShort
    rw [read_le16_encode pre rest _ hu]
    simp only []
    rw [toInt16_of_int i h0 h1]
  · intro h0 h1
    have hu : (i % 2 ^ 32).toNat < 2 ^ 32 := by omega
    unfold NIFStream.getInt
    rw [read_le32_encode pre rest _ hu]
    simp only []
    rw [toInt32_of_int i h0 h1]

theorem NIFStream.integer_getters_witness :
    (NIFStream.ofBytes "a.nif" [0x78, 0x56, 0x34, 0x12]).getUInt =
      Result.ok (0x78 + 2 ^ 8 * 0x56 + 2 ^ 16 * 0x34 + 2 ^ 24 * 0x12)
        ((NIFStream.ofBytes "a.nif" [0x78, 0x56, 0x34, 0x12]).advance 4) ∧
    (streamAt [9] (encode_le16 ((-2 : Int) % 2 ^ 16).toNat) [7]).getShort =
      Result.ok (-2) ((streamAt [9] (encode_le16 ((-2 : Int) % 2 ^ 16).toNat) [7]).advance 2) ∧
    (streamAt [9] (encode_le32 0x04000002) []).getUInt =
      Result.ok 0x04000002 ((streamAt [9] (encode_le32 0x04000002) []).advance 4) :=
  ⟨(NIFStream.integer_getters (NIFStream.ofBytes "a.nif" [0x78, 0x56, 0x34, 0x12]) [] [] 0 0).2.2.1
      (by decide),
    (NIFStream.integer_getters (NIFStream.ofBytes "a.nif" []) [9] [7] 0 (-2)).2.2.2.2.2.2.2.2.1
      (by decide) (by decide),
    (NIFStream.integer_getters (NIFStream.ofBytes "a.nif" []) [9] [] 0x04000002 0).2.2.2.2.2.2.2.1
      (by decide)⟩

/-! ## Claims about the cache guard -/

/-- C16: the constructor of `CacheLock` calls `lockCache` exactly once and the destructor
calls `unlockCache` exactly once. For every region run under the guard, whether it
returns or throws, the destructor runs on the state the region leaves and the result
or the exception of the region is what the block gives. When the region itself makes
`k` lock calls and `k` unlock calls and leaves the depth as it found it, the block
makes `k + 1` calls of each and the depth after the block is the depth before it. -/
theorem NIFFile.CacheLock.scope_balanced {α : Type}
    (region : CacheState → Except Error α × CacheState) (c : CacheState) (k : Nat)
    (hlevel : (region (NIFFile.lockCache c)).2.lockLevel = (NIFFile.lockCache c).lockLevel)
    (hlock : (region (NIFFile.lockCache c)).2.lockCalls = (NIFFile.lockCache c).lockCalls + k)
    (hunlock : (region (NIFFile.lockCache c)).2.unlockCalls
      = (NIFFile.lockCache c).unlockCalls + k) :
    ((NIFFile.CacheLock.construct c).lockCalls = c.lockCalls + 1 ∧
      (NIFFile.CacheLock.construct c).unlockCalls = c.unlockCalls) ∧
    ((NIFFile.CacheLock.destruct c).unlockCalls = c.unlockCalls + 1 ∧
      (NIFFile.CacheLock.destruct c).lockCalls = c.lockCalls) ∧
    (NIFFile.CacheLock.scope region c).1 = (region (NIFFile.CacheLock.construct c)).1 ∧
    (NIFFile.CacheLock.scope region c).2
      = NIFFile.CacheLock.destruct (region (NIFFile.CacheLock.construct c)).2 ∧
    (NIFFile.CacheLock.scope region c).2.lockCalls = c.lockCalls + (k + 1) ∧
    (NIFFile.CacheLock.scope region c).2.unlockCalls = c.unlockCalls + (k + 1) ∧
    (NIFFile.CacheLock.scope region c).2.lockLevel = c.lockLevel := by
  have hscope : NIFFile.CacheLock.scope region c =
      ((region (NIFFile.lockCache c)).1, NIFFile.unlockCache (region (NIFFile.lockCache c)).2) := by
    unfold NIFFile.CacheLock.scope NIFFile.CacheLock.construct NIFFile.CacheLock.destruct
    rcases hr : region (NIFFile.lockCache c) with ⟨r, c2⟩
    cases r <;> simp only [hr]
  refine ⟨⟨rfl, rfl⟩, ⟨rfl, rfl⟩, ?_, ?_, ?_, ?_, ?_⟩
  · rw [hscope]; rfl
  · rw [hscope]; rfl
  · rw [hscope]
    show (region (NIFFile.lockCache c)).2.lockCalls = _
    rw [hlock]
    show c.lockCalls + 1 + k = _
    omega
  · rw [hscope]
    show (region (NIFFile.lockCache c)).2.unlockCalls + 1 = _
    rw [hunlock]
    show c.unlockCalls + k + 1 = _
    omega
  · rw [hscope]
    show (region (NIFFile.lockCache c)).2.lockLevel - 1 = _
    rw [hlevel]
    show c.lockLevel + 1 - 1 = _
    omega

theorem NIFFile.CacheLock.scope_balanced_witness :
    (NIFFile.CacheLock.scope throwingRegion ⟨2, 5, 3⟩).1
      = Except.error (Error.runtime_error "NIFFile Error: x") ∧
    (NIFFile.CacheLock.scope throwingRegion ⟨2, 5, 3⟩).2.lockCalls = 5 + (1 + 1) ∧
    (NIFFile.CacheLock.scope throwingRegion ⟨2, 5, 3⟩).2.unlockCalls = 3 + (1 + 1) ∧
    (NIFFile.CacheLock.scope throwingRegion ⟨2, 5, 3⟩).2.lockLevel = 2 :=
  ⟨rfl,
    (NIFFile.CacheLock.scope_balanced throwingRegion ⟨2, 5, 3⟩ 1
      (by decide) (by decide) (by decide)).2.2.2.2.1,
    (NIFFile.CacheLock.scope_balanced throwingRegion ⟨2, 5, 3⟩ 1
      (by decide) (by decide) (by decide)).2.2.2.2.2.1,
    (NIFFile.CacheLock.scope_balanced throwingRegion ⟨2, 5, 3⟩ 1
      (by decide) (by decide) (by decide)).2.2.2.2.2.2⟩

/-! ## Concrete runs of the generic readers -/

theorem NIFStream.get_throws_witness :
    (NIFStream.get "f" streamOfVersion : Result F32).thrown =
      some (Error.runtime_error ("Can not read a <" ++ "f" ++ "> from a NIF File!  The get() function was called with the wrong template!")) ∧
    (NIFStream.get "f" streamOfVersion : Result F32).stream = streamOfVersion :=
  ⟨(NIFStream.get_throws "f" streamOfVersion).1, (NIFStream.get_throws "f" streamOfVersion).2.1⟩

end Nif
